import Mathlib

/-!
Verification of the middle/back end of a small educational C-like compiler
(semantic analysis + quadruple IR, a four-pass optimizer, x86-64 lowering).

The definitions below are shallow embeddings of the Python sources:
`semantic.py` (SymbolTable, Quadruple, SemanticAnalyzer), `optimizer.py`
(Optimizer with constant folding, CSE, dead code elimination, strength
reduction) and `codegen.py` (CodeGenerator).  Python's dynamically typed
operands (`int | str | None`) are modelled by the tagged `Operand` type;
Python dicts keyed by strings are modelled by association lists where a
fresh insertion is consed in front (so lookup finds the latest binding,
exactly like dict assignment).
-/

namespace SimpleCompiler

/-- An operand of a quadruple: Python `None`, an `int` literal, or a
variable / temporary name (`str`).  (`optimizer.py` dispatches on
`isinstance(operand, int)` / `isinstance(operand, str)`.) -/
inductive Operand where
  | null : Operand
  | int : Int → Operand
  | str : String → Operand
deriving DecidableEq, Repr

/-- `Quadruple` from `semantic.py`: `(op, arg1, arg2, result)`.  In every
construction site of the repository `result` is a string (a variable,
temporary or label name), so it is modelled as `String`. -/
structure Quadruple where
  op : String
  arg1 : Operand
  arg2 : Operand
  result : String
deriving DecidableEq, Repr

/-- The constant table of the optimizer (`self.constants : Dict[str, int]`).
Insertion conses in front; `List.lookup` returns the most recent binding,
matching Python dict overwrite semantics. -/
def Cmap := List (String × Int)

instance : DecidableEq Cmap := by unfold Cmap; infer_instance

/-- Python dict assignment `self.constants[k] = v`. -/
def Cmap.set (m : Cmap) (k : String) (v : Int) : Cmap := (k, v) :: m

/-- Python dict lookup (`k in m` / `m[k]`). -/
def Cmap.get (m : Cmap) (k : String) : Option Int := List.lookup k m

/-- `Optimizer._get_value`: an `int` operand is itself a value, a `str`
operand is looked up in the constant table, anything else is `None`. -/
def getValue (m : Cmap) (o : Operand) : Option Int :=
  match o with
  | .int n => some n
  | .str s => m.get s
  | .null => none

/-- Errors that `Optimizer._compute_constant` can raise: `ZeroDivisionError`
from `arg1 // arg2` with a zero divisor, and the explicit `ValueError` for an
unknown operator. -/
inductive FoldError where
  | zeroDivision : FoldError
  | valueError : FoldError
deriving DecidableEq, Repr

/-- `Optimizer._compute_constant`.  Python `//` is floored division, which is
`Int.fdiv` (NOT `Int.tdiv`, which truncates toward zero). -/
def computeConstant (op : String) (a1 a2 : Int) : Except FoldError Int :=
  if op = "+" then .ok (a1 + a2)
  else if op = "-" then .ok (a1 - a2)
  else if op = "*" then .ok (a1 * a2)
  else if op = "/" then
    if a2 = 0 then .error .zeroDivision else .ok (Int.fdiv a1 a2)
  else if op = "==" then .ok (if a1 = a2 then 1 else 0)
  else if op = "!=" then .ok (if a1 ≠ a2 then 1 else 0)
  else if op = ">" then .ok (if a1 > a2 then 1 else 0)
  else if op = "<" then .ok (if a1 < a2 then 1 else 0)
  else if op = ">=" then .ok (if a1 ≥ a2 then 1 else 0)
  else if op = "<=" then .ok (if a1 ≤ a2 then 1 else 0)
  else .error .valueError

/-- The arithmetic operator list of `_constant_folding`. -/
def arithOps : List String := ["+", "-", "*", "/"]

/-- The relational operator list of `_constant_folding` (and of CSE). -/
def relOps : List String := ["==", "!=", ">", "<", ">=", "<="]

/-- One iteration of the `while` loop of `Optimizer._constant_folding`:
given the current constant table and the quadruple under scrutiny it
returns the updated table and the (single) quadruple appended to
`new_quads`.  For an arithmetic quadruple the `try`/`except
ZeroDivisionError` of the source keeps the original quadruple; for the
operators of `arithOps` the only error `computeConstant` can produce is
`zeroDivision`, so catching every error is the same thing. -/
def foldStep (m : Cmap) (q : Quadruple) : Cmap × Quadruple :=
  if q.op = "=" then
    match q.arg1 with
    | .int n => (m.set q.result n, q)
    | .str s =>
      match m.get s with
      | some v => (m.set q.result v, q)
      | none => (m, q)
    | .null => (m, q)
  else if q.op ∈ arithOps then
    match getValue m q.arg1, getValue m q.arg2 with
    | some a1, some a2 =>
      match computeConstant q.op a1 a2 with
      | .ok v => (m.set q.result v, ⟨"=", .int v, .null, q.result⟩)
      | .error _ => (m, q)
    | _, _ => (m, q)
  else if q.op ∈ relOps then
    match getValue m q.arg1, getValue m q.arg2 with
    | some a1, some a2 =>
      match computeConstant q.op a1 a2 with
      | .ok v => (m.set q.result v, ⟨"=", .int v, .null, q.result⟩)
      | .error _ => (m, q)  -- unreachable: relational folding never fails
    | _, _ => (m, q)
  else (m, q)

/-- The loop of `Optimizer._constant_folding`, threading the constant
table through `foldStep` and collecting `new_quads`. -/
def constantFoldingGo (m : Cmap) : List Quadruple → Cmap × List Quadruple
  | [] => (m, [])
  | q :: rest =>
    let (m', q') := foldStep m q
    let (m'', rest') := constantFoldingGo m' rest
    (m'', q' :: rest')

/-- `Optimizer._constant_folding` as invoked by `optimize` (the constant
table starts empty in `__init__`). -/
def constantFolding (qs : List Quadruple) : List Quadruple :=
  (constantFoldingGo [] qs).2

/-- The expression-key map of `_common_subexpression_elimination`:
`(op, arg1, arg2) -> first result name`. -/
def Emap := List ((String × Operand × Operand) × String)

/-- One iteration of the CSE loop. -/
def cseStep (exprs : Emap) (q : Quadruple) : Emap × Quadruple :=
  if q.op ∈ arithOps ++ relOps then
    let key := (q.op, q.arg1, q.arg2)
    match List.lookup key exprs with
    | some existingVar => (exprs, ⟨"=", .str existingVar, .null, q.result⟩)
    | none => ((key, q.result) :: exprs, q)
  else (exprs, q)

/-- The loop of `_common_subexpression_elimination`. -/
def cseGo (exprs : Emap) : List Quadruple → List Quadruple
  | [] => []
  | q :: rest =>
    let (exprs', q') := cseStep exprs q
    q' :: cseGo exprs' rest

/-- `Optimizer._common_subexpression_elimination` (the `expressions` map
starts empty each call). -/
def cse (qs : List Quadruple) : List Quadruple := cseGo [] qs

/-- The expression keys of the arithmetic/relational quadruples of a
stream, in order (the candidates CSE considers). -/
def cseKeys : List Quadruple → List (String × Operand × Operand)
  | [] => []
  | q :: rest =>
    if q.op ∈ arithOps ++ relOps then (q.op, q.arg1, q.arg2) :: cseKeys rest
    else cseKeys rest

/-- Python `s.startswith(pre)`, as a character-list check (Lean's
`String.startsWith` is extensionally the same but does not evaluate by
kernel reduction). -/
def pyStartsWith (s pre : String) : Bool := pre.data.isPrefixOf s.data

/-- The inner scan of `_dead_code_elimination`'s third pass: is `name`
referenced as an operand anywhere, or as the target of a `jump`? -/
def isUsed (qs : List Quadruple) (name : String) : Bool :=
  qs.any fun q =>
    q.arg1 == .str name || q.arg2 == .str name ||
      (q.op == "jump" && q.result == name)

/-- The first two passes of `_dead_code_elimination` build `used_vars`
(operands not starting with `"t"`, plus label-quadruple results); the
source computes this set but never reads it afterwards.  Reproduced for
fidelity. -/
def collectUsedVars (qs : List Quadruple) : List String :=
  (qs.foldl (fun acc q =>
    let acc := match q.arg1 with
      | .str s => if ¬ pyStartsWith s "t" then acc ++ [s] else acc
      | _ => acc
    match q.arg2 with
    | .str s => if ¬ pyStartsWith s "t" then acc ++ [s] else acc
    | _ => acc) []) ++
  (qs.foldl (fun acc q => if q.op == "label" then acc ++ [q.result] else acc) [])

/-- The third pass of `_dead_code_elimination`: keep a quadruple unless it
is an assignment to a `"t"`-prefixed name that is nowhere used.  The use
scan runs over the full original list `orig` (the source iterates over the
unmodified `self.optimized_quads`). -/
def dceGo (orig : List Quadruple) : List Quadruple → List Quadruple
  | [] => []
  | q :: rest =>
    if q.op == "=" && pyStartsWith q.result "t" then
      if isUsed orig q.result then q :: dceGo orig rest
      else dceGo orig rest
    else q :: dceGo orig rest

/-- `Optimizer._dead_code_elimination`. -/
def deadCodeElimination (qs : List Quadruple) : List Quadruple := dceGo qs qs

/-- The per-quadruple rewrite of `_strength_reduction`. -/
def srQuad (q : Quadruple) : Quadruple :=
  if q.op = "*" then
    if q.arg2 = .int 2 then ⟨"<<", q.arg1, .int 1, q.result⟩
    else if q.arg1 = .int 2 then ⟨"<<", q.arg2, .int 1, q.result⟩
    else q
  else if q.op = "/" then
    if q.arg2 = .int 2 then ⟨">>", q.arg1, .int 1, q.result⟩
    else q
  else q

/-- The loop of `Optimizer._strength_reduction`. -/
def strengthReduction : List Quadruple → List Quadruple
  | [] => []
  | q :: rest => srQuad q :: strengthReduction rest

/-- The fields of the `Optimizer` object (`__init__`). -/
structure OptimizerState where
  quadruples : List Quadruple
  optimized_quads : List Quadruple
  constants : Cmap

/-- Construction `Optimizer(quadruples)`. -/
def Optimizer.init (qs : List Quadruple) : OptimizerState := ⟨qs, [], []⟩

/-- `Optimizer.optimize`, with the object state made explicit: returns the
optimized list together with the post-call state.  Each pass reads and
rewrites `optimized_quads` (and `_constant_folding` updates `constants`);
none of them touches `quadruples`. -/
def Optimizer.optimizeRun (st : OptimizerState) : List Quadruple × OptimizerState :=
  if st.quadruples.isEmpty then ([], st)
  else
    let st := { st with optimized_quads := st.quadruples }
    let (m', qs') := constantFoldingGo st.constants st.optimized_quads
    let st := { st with constants := m', optimized_quads := qs' }
    let st := { st with optimized_quads := cse st.optimized_quads }
    let st := { st with optimized_quads := deadCodeElimination st.optimized_quads }
    let st := { st with optimized_quads := strengthReduction st.optimized_quads }
    (st.optimized_quads, st)

/-- The optimized stream of a fresh `Optimizer(qs).optimize()` call. -/
def optimize (qs : List Quadruple) : List Quadruple :=
  (Optimizer.optimizeRun (Optimizer.init qs)).1

/-! ## Code generator (`codegen.py`)

Assembly is a list of lines.  Each `self.assembly.append(...)` site is
mapped to a constructor that records whether the line is an instruction /
directive (`text`), the per-quadruple echo comment `; {quad}`
(`quadComment`), one of the fallback comment lines inside the handlers
(`comment`), or the comment-only placeholder emitted by the final `else`
of `_generate_quad` for an operator no branch recognizes (`unknownOp`).
The repository's comment texts are Chinese (and mojibake in the checked-in
file); only their line kind and the operator they carry matter here. -/

inductive AsmLine where
  | text : String → AsmLine
  | quadComment : Quadruple → AsmLine
  | comment : String → AsmLine
  | unknownOp : String → AsmLine
deriving DecidableEq, Repr

/-- The symbol table handed to `CodeGenerator` (`symbol_table.symbols`,
a dict `name -> info`); modelled as the insertion-ordered list of
`(name, is_temp)` pairs the analyzer builds. -/
def SymTab := List (String × Bool)

/-- Python `name in self.symbol_table`. -/
def SymTab.hasName (t : SymTab) (s : String) : Bool := t.any (·.1 == s)

/-- Loading an operand into a scratch register: an `int` loads the
literal, a `str` loads from the variable's memory cell, `None` produces
no line (the `isinstance` chains of the source simply fall through). -/
def loadOperand (reg : String) : Operand → List AsmLine
  | .int n => [.text ("    mov " ++ reg ++ ", " ++ toString n)]
  | .str s => [.text ("    mov " ++ reg ++ ", qword [" ++ s ++ "]")]
  | .null => []

/-- `CodeGenerator._generate_assignment`. -/
def generateAssignment (symtab : SymTab) (source : Operand) (dest : String) :
    List AsmLine :=
  match source with
  | .int n => [.text ("    mov qword [" ++ dest ++ "], " ++ toString n)]
  | .str s =>
    if symtab.hasName s && symtab.hasName dest then
      [.text ("    mov rax, qword [" ++ s ++ "]"),
       .text ("    mov qword [" ++ dest ++ "], rax")]
    else
      [.comment ("assignment: " ++ dest ++ " = " ++ s)]
  | .null => [.comment ("unprocessable assignment to " ++ dest)]

/-- `CodeGenerator._generate_arithmetic`.  A `None` first operand makes
the source emit a comment and return before anything else; the operator
dispatch's final `else` also returns early, skipping the result store. -/
def generateArithmetic (symtab : SymTab) (op : String) (arg1 arg2 : Operand)
    (result : String) : List AsmLine :=
  if arg1 = .null then [.comment "unprocessable operand 1"]
  else
    let lines1 := loadOperand "rax" arg1
    let lines2 := loadOperand "rbx" arg2
    let opLines : Option (List AsmLine) :=
      if op = "+" then
        some (if arg2 ≠ .null then [.text "    add rax, rbx"]
              else [.comment "error: addition needs two operands"])
      else if op = "-" then
        some (if arg2 ≠ .null then [.text "    sub rax, rbx"]
              else [.comment "error: subtraction needs two operands"])
      else if op = "*" then
        some (if arg2 ≠ .null then [.text "    imul rax, rbx"]
              else [.comment "error: multiplication needs two operands"])
      else if op = "/" then
        some (if arg2 ≠ .null then
                [.text "    xor rdx, rdx", .text "    idiv rbx"]
              else [.comment "error: division needs two operands"])
      else none
    match opLines with
    | none => lines1 ++ lines2 ++ [.comment ("unknown arithmetic op: " ++ op)]
    | some ls =>
      lines1 ++ lines2 ++ ls ++
        (if symtab.hasName result then
          [.text ("    mov qword [" ++ result ++ "], rax")]
        else [.comment ("result saved to: " ++ result)])

/-- The `cond_map` of `_generate_relation`. -/
def condMap (op : String) : Option String :=
  if op = "==" then some "e" else if op = "!=" then some "ne"
  else if op = ">" then some "g" else if op = "<" then some "l"
  else if op = ">=" then some "ge" else if op = "<=" then some "le"
  else none

/-- `CodeGenerator._generate_relation`; threads `self.label_count`. -/
def generateRelation (symtab : SymTab) (lc : Nat) (op : String)
    (arg1 arg2 : Operand) (result : String) : List AsmLine × Nat :=
  let lines := loadOperand "rax" arg1 ++ loadOperand "rbx" arg2 ++
    [.text "    cmp rax, rbx"]
  match condMap op with
  | some cond =>
    let labelTrue := ".L" ++ toString lc ++ "_true"
    let labelEnd := ".L" ++ toString lc ++ "_end"
    (lines ++
      [.text ("    j" ++ cond ++ " " ++ labelTrue),
       .text "    mov rax, 0",
       .text ("    jmp " ++ labelEnd),
       .text (labelTrue ++ ":"),
       .text "    mov rax, 1",
       .text (labelEnd ++ ":")] ++
      (if symtab.hasName result then
        [.text ("    mov qword [" ++ result ++ "], rax")]
      else []), lc + 1)
  | none => (lines ++ [.comment ("unknown relational op: " ++ op)], lc)

/-- The `jump_map` of `_generate_jump`. -/
def jumpMap (op : String) : Option String :=
  if op = "j==" then some "je" else if op = "j!=" then some "jne"
  else if op = "j>" then some "jg" else if op = "j<" then some "jl"
  else if op = "j>=" then some "jge" else if op = "j<=" then some "jle"
  else none

/-- `CodeGenerator._generate_jump`. -/
def generateJump (op : String) (arg1 arg2 : Operand) (target : String) :
    List AsmLine :=
  if op = "jump" then [.text ("    jmp " ++ target)]
  else if arg1 = .null || arg2 = .null then
    (match arg1 with
      | .str s => [.text ("    mov rax, qword [" ++ s ++ "]"),
                   .text "    test rax, rax"]
      | _ => []) ++
    (if op = "j!=" then [.text ("    jnz " ++ target)]
     else if op = "j==" then [.text ("    jz " ++ target)]
     else [.comment ("unknown jump condition: " ++ op)])
  else
    loadOperand "rax" arg1 ++ loadOperand "rbx" arg2 ++
      [.text "    cmp rax, rbx"] ++
      (match jumpMap op with
       | some mnemonic => [.text ("    " ++ mnemonic ++ " " ++ target)]
       | none => [.comment ("unknown jump: " ++ op)])

/-- `CodeGenerator._generate_quad`: the echo comment, then the dispatch
on the operator.  The `elif op == "jump"` arm of the source is dead code
(subsumed by `op.startswith("j")`); it is kept here in the same position.
The final `else` is the unrecognized-operator placeholder branch. -/
def generateQuad (symtab : SymTab) (lc : Nat) (q : Quadruple) :
    List AsmLine × Nat :=
  let echo := AsmLine.quadComment q
  if q.op = "=" then (echo :: generateAssignment symtab q.arg1 q.result, lc)
  else if q.op ∈ arithOps then
    (echo :: generateArithmetic symtab q.op q.arg1 q.arg2 q.result, lc)
  else if q.op ∈ relOps then
    let (ls, lc') := generateRelation symtab lc q.op q.arg1 q.arg2 q.result
    (echo :: ls, lc')
  else if pyStartsWith q.op "j" then
    (echo :: generateJump q.op q.arg1 q.arg2 q.result, lc)
  else if q.op = "jump" then (echo :: [.text ("    jmp " ++ q.result)], lc)
  else if q.op = "label" then (echo :: [.text (q.result ++ ":")], lc)
  else ([echo, .unknownOp q.op], lc)

/-- The loop of `CodeGenerator.generate` over the quadruples. -/
def generateQuads (symtab : SymTab) (lc : Nat) : List Quadruple → List AsmLine
  | [] => []
  | q :: rest =>
    let (ls, lc') := generateQuad symtab lc q
    ls ++ generateQuads symtab lc' rest

/-- `CodeGenerator._generate_header`: banner comments, a `dq 0` cell per
non-temporary symbol, and the fixed prologue. -/
def generateHeader (symtab : SymTab) : List AsmLine :=
  [.comment "=========================================",
   .comment "x86-64 assembly generated by the small-C compiler",
   .comment "target platform: Linux x86-64",
   .comment "calling convention: System V AMD64 ABI",
   .comment "=========================================",
   .text "",
   .text "section .data",
   .comment "data section"] ++
  (symtab.filter (fun e => !e.2)).map
    (fun e => .text (e.1 ++ " dq 0  ; int variable")) ++
  [.text "",
   .text "section .bss",
   .comment "uninitialized data section",
   .comment "(none)",
   .text "",
   .text "section .text",
   .text "    global _start",
   .text "",
   .text "_start:",
   .comment "program entry point",
   .text "    push rbp",
   .text "    mov rbp, rsp",
   .text ""]

/-- `CodeGenerator._generate_footer`. -/
def generateFooter : List AsmLine :=
  [.text "",
   .comment "program exit",
   .text "    mov rsp, rbp",
   .text "    pop rbp",
   .text "    mov rax, 60     ; sys_exit",
   .text "    xor rdi, rdi    ; exit code 0",
   .text "    syscall",
   .text ""]

/-- `CodeGenerator.generate` (`label_count` starts at 0). -/
def generate (symtab : SymTab) (qs : List Quadruple) : List AsmLine :=
  generateHeader symtab ++ generateQuads symtab 0 qs ++ generateFooter

/-! ## Semantic analyzer (`semantic.py`)

The analyzer walks the parser's `ASTNode` trees.  A node carries a
category tag (`node_type`), an optional literal/name payload and a child
list.  The walk is embedded as one fuel-indexed recursive function over a
`Call` tag (one constructor per `_analyze_*` method, plus the `for` loops
over child lists); the fuel only serves termination — every claim is
either proved for all fuel values or evaluated at an ample concrete fuel.
Exceptions escape methods while the already-appended quadruples stay in
`self.quadruples`, so the monad returns the state alongside the
`Except` result. -/

/-- An AST payload: Python `None`, a name / operator lexeme, or a number. -/
inductive AVal where
  | null : AVal
  | str : String → AVal
  | int : Int → AVal
deriving DecidableEq, Repr

/-- `parser.ASTNode`. -/
inductive ASTNode where
  | mk : String → AVal → List ASTNode → ASTNode

/-- The node category tag. -/
def ASTNode.node_type : ASTNode → String
  | .mk t _ _ => t

/-- The literal/name payload. -/
def ASTNode.value : ASTNode → AVal
  | .mk _ v _ => v

/-- The ordered child list. -/
def ASTNode.children : ASTNode → List ASTNode
  | .mk _ _ cs => cs

/-- Semantic errors (`SemanticError`), structured by raise site:
redeclaration in `SymbolTable.add_symbol`, the `not declared` checks, and
the various malformed-shape messages.  (The source stores `str(e)`; the
message text is irrelevant to every claim.) -/
inductive SemError where
  | redeclared : String → SemError
  | undeclared : String → SemError
  | malformed : String → SemError
deriving DecidableEq, Repr

/-- A failure of the walk: a `SemanticError` (caught by `analyze`), or an
uncaught Python exception — `AttributeError` / `IndexError` on AST shapes
the parser never produces, or fuel exhaustion of the embedding. -/
inductive Failure where
  | sem : SemError → Failure
  | crash : String → Failure
deriving DecidableEq, Repr

/-- The mutable fields of `SemanticAnalyzer` (+ its `SymbolTable`):
symbol insertion order with the `is_temp` flag (the type is always
`"int"`), the temporary and label counters, the quadruple list and the
error list. -/
structure ASt where
  symbols : List (String × Bool)
  next_temp : Nat
  quadruples : List Quadruple
  next_label : Nat
  errors : List SemError
deriving DecidableEq, Repr

/-- The analyzer monad: state plus escaping exceptions (the state at the
moment of the raise is kept, as with a Python object). -/
def M (α : Type) : Type := ASt → Except Failure α × ASt

instance : Monad M where
  pure a := fun st => (.ok a, st)
  bind x f := fun st =>
    match x st with
    | (.ok a, st') => f a st'
    | (.error e, st') => (.error e, st')

/-- `raise`. -/
def mthrow {α : Type} (e : Failure) : M α := fun st => (.error e, st)

/-- Read the analyzer object. -/
def getM : M ASt := fun st => (.ok st, st)

/-- Update the analyzer object. -/
def modifyM (f : ASt → ASt) : M Unit := fun st => (.ok (), f st)

/-- `SymbolTable.add_symbol`: raises `Redeclared` on a present name,
otherwise appends the entry. -/
def addSymbol (name : String) (isTemp : Bool) : M Unit := fun st =>
  if st.symbols.any (·.1 == name) then (.error (.sem (.redeclared name)), st)
  else (.ok (), { st with symbols := st.symbols ++ [(name, isTemp)] })

/-- `SymbolTable.exists`. -/
def symExists (name : String) : M Bool := do
  let st ← getM
  pure (st.symbols.any (·.1 == name))

/-- `SymbolTable.new_temp`: name the next temporary, bump the counter,
insert it (which can itself raise `Redeclared` if the user declared a
variable of that name). -/
def newTemp : M String := do
  let st ← getM
  let nm := "t" ++ toString st.next_temp
  modifyM (fun s => { s with next_temp := s.next_temp + 1 })
  addSymbol nm true
  pure nm

/-- `SemanticAnalyzer._new_label`. -/
def newLabel : M String := do
  let st ← getM
  let lbl := "L" ++ toString st.next_label
  modifyM (fun s => { s with next_label := s.next_label + 1 })
  pure lbl

/-- `self.quadruples.append(...)`. -/
def emit (q : Quadruple) : M Unit :=
  modifyM (fun s => { s with quadruples := s.quadruples ++ [q] })

/-- Extract a node payload expected to be a name (identifier value,
operator lexeme).  A non-string payload never arises from the parser; the
dynamically typed source would thread the odd value along, which this
embedding reports as a crash. -/
def nodeStrValue (n : ASTNode) : M String :=
  match n.value with
  | .str s => pure s
  | _ => mthrow (.crash "non-string node payload")

/-- A `Number` payload used as a quadruple operand (`return child.value`). -/
def valToOperand : AVal → Operand
  | .null => .null
  | .str s => .str s
  | .int n => .int n

/-- Result of an `_analyze_*` method: statements return nothing,
expressions return an operand (a name or a literal), and
`_analyze_bool_expr` returns a *pending comparison* — a `Quadruple`
object that is handed back without being appended; only its `op`, `arg1`
and `arg2` fields are ever consumed, so the never-read `result` field is
not recorded. -/
inductive RVal where
  | unit : RVal
  | opnd : Operand → RVal
  | pending : String → Operand → Operand → RVal

/-- Use an expression result where the source expects a plain value.  A
pending comparison flowing here would make Python store a `Quadruple`
object inside another quadruple's operand slot (unreachable from parser
trees); the embedding reports a crash. -/
def rvalToOperand : RVal → M Operand
  | .opnd o => pure o
  | _ => mthrow (.crash "expression result is not an operand")

/-- The identifier-reference pattern the `_analyze_*` methods repeat for
left/right operands: read the name, check `SymbolTable.exists`, raise
`Undeclared` on failure, otherwise use the name as an operand. -/
def identOperand (nd : ASTNode) : M Operand := do
  let s ← nodeStrValue nd
  let ex ← symExists s
  if ¬ ex then mthrow (.sem (.undeclared s))
  else pure (Operand.str s)

/-- Call tags of the analyzer walk: one per `_analyze_*` method, plus the
`for` loops over child lists.  (`_analyze_arith_expr_prime` and
`_analyze_term_prime` are never called in the source and are omitted.) -/
inductive Call where
  | program : ASTNode → Call
  | progChildren : List ASTNode → Call
  | declList : ASTNode → Call
  | decls : List ASTNode → Call
  | declaration : ASTNode → Call
  | declIds : List ASTNode → Call
  | stmtList : ASTNode → Call
  | stmts : List ASTNode → Call
  | statement : ASTNode → Call
  | assignStmt : ASTNode → Call
  | ifStmt : ASTNode → Call
  | whileStmt : ASTNode → Call
  | forStmt : ASTNode → Call
  | compound : ASTNode → Call
  | expression : ASTNode → Call
  | assignExpr : ASTNode → Call
  | boolExpr : ASTNode → Call
  | arithExpr : ASTNode → Call
  | term : ASTNode → Call
  | factor : ASTNode → Call

/-- The condition-to-jump translation the three control statements repeat
inline: a pending comparison becomes one conditional jump on the (negated,
for `while`/`for`; NOT negated, for `if`) relational tag, any other
condition value is compared against 0 into a fresh temporary and tested.
The `negated` flag selects the literal operator strings of the respective
method (`if`: `j<op>` with `!=`/`j==`; `while`/`for`: `j!<op>` with
`==`/`j!=`). -/
def condJump (negated : Bool) (exprNode : ASTNode) (condResult : RVal)
    (lbl : String) : M Unit :=
  if exprNode.node_type = "BooleanExpression" ∧ exprNode.children.length > 1 then
    match condResult with
    | .pending op a1 a2 =>
      emit ⟨(if negated then "j!" else "j") ++ op, a1, a2, lbl⟩
    | _ => mthrow (.crash "condition is not a pending comparison")
  else
    newTemp >>= fun temp =>
    rvalToOperand condResult >>= fun condOp =>
    emit ⟨(if negated then "==" else "!="), condOp, .int 0, temp⟩ >>= fun _ =>
    emit ⟨(if negated then "j!=" else "j=="), .str temp, .int 0, lbl⟩

/-- The analyzer walk.  Each arm transcribes the corresponding
`_analyze_*` method of `semantic.py`. -/
def runA : Nat → Call → M RVal
  | 0, _ => mthrow (.crash "recursion fuel exhausted")
  | fuel + 1, c =>
    match c with
    | .program n =>
      if n.node_type ≠ "Program" then
        mthrow (.sem (.malformed ("Expected Program node, got " ++ n.node_type)))
      else runA fuel (.progChildren n.children)
    | .progChildren [] => pure .unit
    | .progChildren (ch :: cs) =>
      (if ch.node_type = "DeclarationSequence" then runA fuel (.declList ch)
       else if ch.node_type = "StatementSequence" then runA fuel (.stmtList ch)
       else pure .unit) >>= fun _ =>
      runA fuel (.progChildren cs)
    | .declList n => runA fuel (.decls n.children)
    | .decls [] => pure .unit
    | .decls (ch :: cs) =>
      (if ch.node_type = "Declaration" then runA fuel (.declaration ch)
       else pure .unit) >>= fun _ =>
      runA fuel (.decls cs)
    | .declaration n =>
      match n.children.find? (fun ch => ch.node_type == "IdentifierList") with
      | none => mthrow (.sem (.malformed "Declaration missing identifier list"))
      | some idList => runA fuel (.declIds idList.children)
    | .declIds [] => pure .unit
    | .declIds (ch :: cs) =>
      (if ch.node_type = "Identifier" then
        nodeStrValue ch >>= fun nm => addSymbol nm false
       else pure ()) >>= fun _ =>
      runA fuel (.declIds cs)
    | .stmtList n => runA fuel (.stmts n.children)
    | .stmts [] => pure .unit
    | .stmts (ch :: cs) =>
      runA fuel (.statement ch) >>= fun _ =>
      runA fuel (.stmts cs)
    | .statement n =>
      if n.node_type = "AssignmentStatement" then runA fuel (.assignStmt n)
      else if n.node_type = "IfStatement" then runA fuel (.ifStmt n)
      else if n.node_type = "WhileStatement" then runA fuel (.whileStmt n)
      else if n.node_type = "ForStatement" then runA fuel (.forStmt n)
      else if n.node_type = "CompoundStatement" then runA fuel (.compound n)
      else if n.node_type = "EmptyStatement" then pure .unit
      else mthrow (.sem (.malformed ("Unknown statement type: " ++ n.node_type)))
    | .assignStmt n =>
      -- the source looks for "BoolExpression", a tag the parser never makes
      match n.children.find? (fun ch =>
          ch.node_type == "AssignmentExpression" || ch.node_type == "BoolExpression") with
      | none => mthrow (.sem (.malformed "Assignment statement missing expression"))
      | some e => runA fuel (.expression e) >>= fun _ => pure RVal.unit
    | .ifStmt n =>
      match n.children.find? (fun ch =>
          ch.node_type == "AssignmentExpression" || ch.node_type == "BooleanExpression") with
      | none => mthrow (.sem (.malformed "if statement missing condition expression"))
      | some exprNode =>
        runA fuel (.expression exprNode) >>= fun condResult =>
        newLabel >>= fun falseLabel =>
        newLabel >>= fun endLabel =>
        -- NOTE: the operator is NOT negated here (unlike while/for)
        condJump false exprNode condResult falseLabel >>= fun _ =>
        (match n.children.find? (fun ch => ch.node_type == "CompoundStatement") with
         | some thenStmt => runA fuel (.compound thenStmt) >>= fun _ => pure ()
         | none => pure ()) >>= fun _ =>
        emit ⟨"jump", .null, .null, endLabel⟩ >>= fun _ =>
        emit ⟨"label", .null, .null, falseLabel⟩ >>= fun _ =>
        (match n.children.filter (fun ch => ch.node_type == "CompoundStatement") with
         | _ :: elseStmt :: _ => runA fuel (.compound elseStmt) >>= fun _ => pure ()
         | _ => pure ()) >>= fun _ =>
        emit ⟨"label", .null, .null, endLabel⟩ >>= fun _ =>
        pure RVal.unit
    | .whileStmt n =>
      newLabel >>= fun startLabel =>
      newLabel >>= fun endLabel =>
      emit ⟨"label", .null, .null, startLabel⟩ >>= fun _ =>
      match n.children.find? (fun ch =>
          ch.node_type == "AssignmentExpression" || ch.node_type == "BooleanExpression") with
      | none => mthrow (.sem (.malformed "while statement missing condition expression"))
      | some exprNode =>
        runA fuel (.expression exprNode) >>= fun condResult =>
        condJump true exprNode condResult endLabel >>= fun _ =>
        (match n.children.find? (fun ch => ch.node_type == "CompoundStatement") with
         | some body => runA fuel (.compound body) >>= fun _ => pure ()
         | none => pure ()) >>= fun _ =>
        emit ⟨"jump", .null, .null, startLabel⟩ >>= fun _ =>
        emit ⟨"label", .null, .null, endLabel⟩ >>= fun _ =>
        pure RVal.unit
    | .forStmt n =>
      match n.children with
      | initExpr :: condExpr :: iterExpr :: bodyStmt :: _ =>
        runA fuel (.expression initExpr) >>= fun _ =>
        newLabel >>= fun startLabel =>
        newLabel >>= fun endLabel =>
        emit ⟨"label", .null, .null, startLabel⟩ >>= fun _ =>
        runA fuel (.expression condExpr) >>= fun condResult =>
        condJump true condExpr condResult endLabel >>= fun _ =>
        (if bodyStmt.node_type = "CompoundStatement" then
          runA fuel (.compound bodyStmt) >>= fun _ => pure ()
        else pure ()) >>= fun _ =>
        runA fuel (.expression iterExpr) >>= fun _ =>
        emit ⟨"jump", .null, .null, startLabel⟩ >>= fun _ =>
        emit ⟨"label", .null, .null, endLabel⟩ >>= fun _ =>
        pure RVal.unit
      | _ => mthrow (.sem (.malformed "For statement has incorrect number of children"))
    | .compound n =>
      match n.children.find? (fun ch => ch.node_type == "StatementSequence") with
      | some seq => runA fuel (.stmtList seq)
      | none => pure RVal.unit
    | .expression n =>
      if n.node_type = "AssignmentExpression" then runA fuel (.assignExpr n)
      else if n.node_type = "BooleanExpression" then runA fuel (.boolExpr n)
      -- the dispatch tests "ArithExpression", a tag the parser never makes
      -- (the parser's arithmetic nodes are tagged "ArithmeticExpression")
      else if n.node_type = "ArithExpression" then runA fuel (.arithExpr n)
      else if n.node_type = "Term" then runA fuel (.term n)
      else if n.node_type = "Factor" then runA fuel (.factor n)
      else mthrow (.sem (.malformed ("Unknown expression type: " ++ n.node_type)))
    | .assignExpr n =>
      match n.children with
      | idNode :: rightExpr :: _ =>
        if idNode.node_type ≠ "Identifier" then
          mthrow (.sem (.malformed "Assignment expression missing left-hand identifier"))
        else
          nodeStrValue idNode >>= fun idName =>
          symExists idName >>= fun ex =>
          if ¬ ex then mthrow (.sem (.undeclared idName))
          else
            (if rightExpr.node_type = "ArithmeticExpression" then
              runA fuel (.arithExpr rightExpr) >>= fun r => rvalToOperand r
            else if rightExpr.node_type = "Identifier" then
              identOperand rightExpr
            else if rightExpr.node_type = "Number" then
              pure (valToOperand rightExpr.value)
            else
              runA fuel (.expression rightExpr) >>= fun r => rvalToOperand r)
            >>= fun rightValue =>
            emit ⟨"=", rightValue, .null, idName⟩ >>= fun _ =>
            pure (RVal.opnd (.str idName))
      | _ => mthrow (.sem (.malformed "Assignment expression missing right-hand expression"))
    | .boolExpr n =>
      match n.children with
      | [single] =>
        runA fuel (.arithExpr single) >>= fun r =>
        rvalToOperand r >>= fun arithResult =>
        newTemp >>= fun temp =>
        emit ⟨"!=", arithResult, .int 0, temp⟩ >>= fun _ =>
        pure (RVal.pending "!=" arithResult (.int 0))
      | [leftExpr, relOpNode, rightExpr] =>
        (if leftExpr.node_type = "Identifier" then identOperand leftExpr
         else if leftExpr.node_type = "Number" then pure (valToOperand leftExpr.value)
         else runA fuel (.arithExpr leftExpr) >>= fun r => rvalToOperand r)
        >>= fun leftResult =>
        (if rightExpr.node_type = "Identifier" then identOperand rightExpr
         else if rightExpr.node_type = "Number" then pure (valToOperand rightExpr.value)
         else runA fuel (.arithExpr rightExpr) >>= fun r => rvalToOperand r)
        >>= fun rightResult =>
        nodeStrValue relOpNode >>= fun relOp =>
        pure (RVal.pending relOp leftResult rightResult)
      | _ => mthrow (.sem (.malformed "Boolean expression format error"))
    | .arithExpr n =>
      match n.children with
      | [leftChild, opChild, rightChild] =>
        (if leftChild.node_type = "Identifier" then identOperand leftChild
         else if leftChild.node_type = "Number" then pure (valToOperand leftChild.value)
         else if leftChild.node_type = "ArithmeticExpression" then
           runA fuel (.arithExpr leftChild) >>= fun r => rvalToOperand r
         else runA fuel (.expression leftChild) >>= fun r => rvalToOperand r)
        >>= fun leftResult =>
        (if rightChild.node_type = "Identifier" then identOperand rightChild
         else if rightChild.node_type = "Number" then pure (valToOperand rightChild.value)
         else if rightChild.node_type = "ArithmeticExpression" then
           runA fuel (.arithExpr rightChild) >>= fun r => rvalToOperand r
         else runA fuel (.expression rightChild) >>= fun r => rvalToOperand r)
        >>= fun rightResult =>
        nodeStrValue opChild >>= fun op =>
        newTemp >>= fun temp =>
        emit ⟨op, leftResult, rightResult, temp⟩ >>= fun _ =>
        pure (RVal.opnd (.str temp))
      | [] => mthrow (.crash "IndexError: childless arithmetic expression")
      | single :: _ => runA fuel (.expression single)
    | .term n =>
      match n.children with
      | [leftChild, opChild, rightChild] =>
        (if leftChild.node_type = "Identifier" then identOperand leftChild
         else if leftChild.node_type = "Number" then pure (valToOperand leftChild.value)
         else if leftChild.node_type = "Factor" then
           runA fuel (.factor leftChild) >>= fun r => rvalToOperand r
         else runA fuel (.expression leftChild) >>= fun r => rvalToOperand r)
        >>= fun leftResult =>
        (if rightChild.node_type = "Identifier" then identOperand rightChild
         else if rightChild.node_type = "Number" then pure (valToOperand rightChild.value)
         else if rightChild.node_type = "Factor" then
           runA fuel (.factor rightChild) >>= fun r => rvalToOperand r
         else runA fuel (.expression rightChild) >>= fun r => rvalToOperand r)
        >>= fun rightResult =>
        nodeStrValue opChild >>= fun op =>
        newTemp >>= fun temp =>
        emit ⟨op, leftResult, rightResult, temp⟩ >>= fun _ =>
        pure (RVal.opnd (.str temp))
      | [] => mthrow (.crash "IndexError: childless term")
      | single :: _ => runA fuel (.factor single)
    | .factor n =>
      match n.children with
      | [] => mthrow (.sem (.malformed "Factor is empty"))
      | child :: _ =>
        if child.node_type = "Identifier" then
          identOperand child >>= fun o => pure (RVal.opnd o)
        else if child.node_type = "Number" then
          pure (RVal.opnd (valToOperand child.value))
        else if child.node_type = "ArithExpression" then
          runA fuel (.arithExpr child)
        else
          mthrow (.sem (.malformed ("Illegal factor type: " ++ child.node_type)))

/-- `SemanticAnalyzer.__init__`: empty table and stream, counters at 1. -/
def initialState : ASt := ⟨[], 1, [], 1, []⟩

/-- `SemanticAnalyzer.analyze`: run the walk; a `SemanticError` is caught
and appended to `self.errors` (returning `False`), success returns
`len(self.errors) == 0`; any other exception propagates. -/
def analyze (fuel : Nat) (ast : ASTNode) : Except Failure Bool × ASt :=
  match runA fuel (.program ast) initialState with
  | (.ok _, st) => (.ok st.errors.isEmpty, st)
  | (.error (.sem e), st) => (.ok false, { st with errors := st.errors ++ [e] })
  | (.error (.crash m), st) => (.error (.crash m), st)

/-! ## Concrete abstract syntax trees

Trees as `parser.py` builds them for the spec's scenario programs (the
parser is an excluded collaborator; its node shapes are those of
`parser_new.py`: binary `+`/`-` nodes are tagged `ArithmeticExpression`,
binary `*`/`/` nodes are tagged `Term`, leaves are `Identifier` /
`Number`, operators are `Operator` / `RelationalOperator` children). -/

/-- An `Identifier` leaf. -/
def mkIdent (s : String) : ASTNode := .mk "Identifier" (.str s) []

/-- A `Number` leaf. -/
def mkNum (n : Int) : ASTNode := .mk "Number" (.int n) []

/-- An `Operator` leaf. -/
def mkOp (s : String) : ASTNode := .mk "Operator" (.str s) []

/-- A `RelationalOperator` leaf. -/
def mkRelOp (s : String) : ASTNode := .mk "RelationalOperator" (.str s) []

/-- An assignment statement `x = e;`. -/
def mkAssign (x : String) (e : ASTNode) : ASTNode :=
  .mk "AssignmentStatement" .null
    [.mk "AssignmentExpression" .null [mkIdent x, e]]

/-- A compound block holding the given statements. -/
def mkBlock (stmts : List ASTNode) : ASTNode :=
  .mk "CompoundStatement" .null [.mk "StatementSequence" .null stmts]

/-- A program `main(){ int <decls>; <stmts> }`. -/
def mkProgram (decls : List String) (stmts : List ASTNode) : ASTNode :=
  .mk "Program" .null
    [.mk "DeclarationSequence" .null
       [.mk "Declaration" .null
          [.mk "IdentifierList" .null (decls.map mkIdent)]],
     .mk "StatementSequence" .null stmts]

/-- Scenario B of the spec: `int a,b,c; a=5; b=3; c=a+b;`. -/
def astScenarioB : ASTNode :=
  mkProgram ["a", "b", "c"]
    [mkAssign "a" (mkNum 5),
     mkAssign "b" (mkNum 3),
     mkAssign "c" (.mk "ArithmeticExpression" .null [mkIdent "a", mkOp "+", mkIdent "b"])]

/-- Scenario C of the spec: `int a,b; a=5; if(a>3){b=1;}else{b=0;}`. -/
def astScenarioC : ASTNode :=
  mkProgram ["a", "b"]
    [mkAssign "a" (mkNum 5),
     .mk "IfStatement" .null
       [.mk "BooleanExpression" .null [mkIdent "a", mkRelOp ">", mkNum 3],
        mkBlock [mkAssign "b" (mkNum 1)],
        mkBlock [mkAssign "b" (mkNum 0)]]]

/-- `int a,b; b=a*2;` — `a` is never assigned, so the multiplication is
not constant-foldable and survives to strength reduction. -/
def astMulByTwo : ASTNode :=
  mkProgram ["a", "b"]
    [mkAssign "b" (.mk "Term" .null [mkIdent "a", mkOp "*", mkNum 2])]

/-- `int total; total = 1;` — a user variable whose name starts with the
letter `t`. -/
def astTotal : ASTNode := mkProgram ["total"] [mkAssign "total" (mkNum 1)]

/-- `main(){ x = 1; }` — uses `x` without declaring it. -/
def astUndeclX : ASTNode :=
  .mk "Program" .null
    [.mk "StatementSequence" .null [mkAssign "x" (mkNum 1)]]

/-! ## Predicates for the analyzer invariants (claim C6) -/

/-- `q` references the identifier `x`: as either operand, or as the
destination of an assignment quadruple.  (Results of jump and label
quadruples are label names, not identifier references.) -/
def quadMentions (q : Quadruple) (x : String) : Prop :=
  q.arg1 = .str x ∨ q.arg2 = .str x ∨ (q.op = "=" ∧ q.result = x)

instance (q : Quadruple) (x : String) : Decidable (quadMentions q x) := by
  unfold quadMentions; infer_instance

/-- The payload check at a single node: a `Number` node must not carry a
string payload.  (Trees built by the parser give `Number` nodes their
decoded integer value; a `Number` node with a *string* payload would flow
that string into a quadruple operand slot without any declaration
check.) -/
def ASTNode.numOkHere (t : String) (v : AVal) : Bool :=
  if t == "Number" then
    match v with
    | .str _ => false
    | _ => true
  else true

/-- Hereditarily: the payload check holds at every descendant. -/
inductive NumOk : ASTNode → Prop where
  | mk : ∀ (t : String) (v : AVal) (cs : List ASTNode),
      ASTNode.numOkHere t v = true → (∀ c ∈ cs, NumOk c) → NumOk (.mk t v cs)

/-- The well-formedness requirement carried by each analyzer call. -/
def wfCall : Call → Prop
  | .program n => NumOk n
  | .progChildren ns => ∀ c ∈ ns, NumOk c
  | .declList n => NumOk n
  | .decls ns => ∀ c ∈ ns, NumOk c
  | .declaration n => NumOk n
  | .declIds ns => ∀ c ∈ ns, NumOk c
  | .stmtList n => NumOk n
  | .stmts ns => ∀ c ∈ ns, NumOk c
  | .statement n => NumOk n
  | .assignStmt n => NumOk n
  | .ifStmt n => NumOk n
  | .whileStmt n => NumOk n
  | .forStmt n => NumOk n
  | .compound n => NumOk n
  | .expression n => NumOk n
  | .assignExpr n => NumOk n
  | .boolExpr n => NumOk n
  | .arithExpr n => NumOk n
  | .term n => NumOk n
  | .factor n => NumOk n

/-- Fuel-indexed check of the `NumOk` predicate, evaluable by kernel
reduction on concrete trees. -/
def numOkF : Nat → ASTNode → Bool
  | 0, _ => false
  | fuel + 1, .mk t v cs => ASTNode.numOkHere t v && cs.all (numOkF fuel)

/-- The name `s` is present in the symbol table of `st`
(`SymbolTable.exists`). -/
def symContains (st : ASt) (s : String) : Bool := st.symbols.any (·.1 == s)

/-- A string operand names a symbol of the table `syms`. -/
def opndOk (syms : List (String × Bool)) (o : Operand) : Prop :=
  ∀ s, o = .str s → syms.any (·.1 == s) = true

/-- Every identifier the quadruple references is in the table: both
operands, and the result when the quadruple is an assignment. -/
def quadOk (syms : List (String × Bool)) (q : Quadruple) : Prop :=
  opndOk syms q.arg1 ∧ opndOk syms q.arg2 ∧
    (q.op = "=" → syms.any (·.1 == q.result) = true)

/-- The analyzer invariant: every emitted quadruple only references
names present in the (grow-only) symbol table. -/
def Inv (st : ASt) : Prop := ∀ q ∈ st.quadruples, quadOk st.symbols q

/-- Result typing of the walk: expression results are table names or
literals; pending comparisons hold two such operands. -/
def rvalOk (v : RVal) (st : ASt) : Prop :=
  match v with
  | .unit => True
  | .opnd o => opndOk st.symbols o
  | .pending _ a b => opndOk st.symbols a ∧ opndOk st.symbols b

/-- Postcondition of one monadic step started at `st`: the invariant is
maintained, the symbol table only grows, the error list is untouched, an
`Undeclared x` outcome means `x` is (still) absent from the table, and a
normal result is well-typed. -/
def GoodP {α : Type} (st : ASt) (out : Except Failure α × ASt)
    (rOk : α → ASt → Prop) : Prop :=
  Inv out.2 ∧
  (∀ s, symContains st s = true → symContains out.2 s = true) ∧
  out.2.errors = st.errors ∧
  (∀ x, out.1 = .error (.sem (.undeclared x)) → symContains out.2 x = false) ∧
  (∀ a, out.1 = .ok a → rOk a out.2)

/-! # Theorems -/

/-- C10: the optimizer never (observably) mutates its input — after
`optimize()` the `quadruples` field passed to the constructor is
unchanged; every pass only rewrites `optimized_quads` (and
`_constant_folding` the constant table). -/
theorem c10_optimizer_input_unchanged (st : OptimizerState) :
    (Optimizer.optimizeRun st).2.quadruples = st.quadruples := by
  unfold Optimizer.optimizeRun
  split <;> rfl

/-- C8: strength reduction rewrites exactly the multiplications with an
operand equal to the literal `2` into a left-shift-by-1 of the other
operand, and the divisions with right operand literal `2` into a
right-shift-by-1 of the left operand, keeping the result name; every
other quadruple passes through unchanged. -/
theorem c8_strength_reduction_spec (qs : List Quadruple) :
    strengthReduction qs = qs.map (fun q =>
      if q.op = "*" ∧ q.arg2 = .int 2 then ⟨"<<", q.arg1, .int 1, q.result⟩
      else if q.op = "*" ∧ q.arg1 = .int 2 then ⟨"<<", q.arg2, .int 1, q.result⟩
      else if q.op = "/" ∧ q.arg2 = .int 2 then ⟨">>", q.arg1, .int 1, q.result⟩
      else q) := by
  induction qs with
  | nil => rfl
  | cons q rest ih =>
    simp only [strengthReduction, List.map_cons, ih]
    congr 1
    unfold srQuad
    by_cases h1 : q.op = "*" <;> by_cases h2 : q.arg2 = Operand.int 2 <;>
      by_cases h3 : q.arg1 = Operand.int 2 <;> by_cases h4 : q.op = "/" <;>
      simp_all

/-- C7: an arithmetic division quadruple whose operands resolve to
literals with divisor `0` is left unmodified by the folding step, the
constant table is not extended, and no error escapes (the pass degrades
to a no-op on that quadruple). -/
theorem c7_fold_div_by_zero_noop (m : Cmap) (q : Quadruple) (a1 : Int)
    (hop : q.op = "/") (h1 : getValue m q.arg1 = some a1)
    (h2 : getValue m q.arg2 = some 0) :
    foldStep m q = (m, q) := by
  unfold foldStep
  rw [hop, h1, h2]
  simp [arithOps, computeConstant]

/-- Witness for C7 at the quadruple `(/, 3, 0, t1)` with an empty
constant table. -/
theorem c7_fold_div_by_zero_noop_witness :
    foldStep [] ⟨"/", .int 3, .int 0, "t1"⟩ = ([], ⟨"/", .int 3, .int 0, "t1"⟩) :=
  c7_fold_div_by_zero_noop [] _ 3 rfl rfl rfl

/-- C4 counterexample: folding `(/, -3, 2, q1)` produces the literal
`-2` — the *floored* quotient (Python `//`) — whereas the quotient
truncated toward zero, `Int.tdiv (-3) 2`, is `-1`. -/
theorem c4_counterexample :
    constantFolding [⟨"/", .int (-3), .int 2, "q1"⟩] =
      [⟨"=", .int (-2), .null, "q1"⟩] ∧ Int.tdiv (-3) 2 = -1 := by
  constructor <;> rfl

/-- C4 (amended): a division quadruple whose operands resolve to
literals with a nonzero divisor folds to a literal assignment of the
*floored* quotient `Int.fdiv` (Python `//` rounds toward negative
infinity, not toward zero), and that value is recorded as a constant. -/
theorem c4_division_folds_floored (m : Cmap) (q : Quadruple) (a1 a2 : Int)
    (hop : q.op = "/") (h1 : getValue m q.arg1 = some a1)
    (h2 : getValue m q.arg2 = some a2) (hz : a2 ≠ 0) :
    foldStep m q =
      (m.set q.result (a1.fdiv a2), ⟨"=", .int (a1.fdiv a2), .null, q.result⟩) := by
  unfold foldStep
  rw [hop, h1, h2]
  simp [arithOps, computeConstant, hz]

/-- Witness for C4 (amended) at `(/, -3, 2, x1)`: the folded literal is
`-2`. -/
theorem c4_division_folds_floored_witness :
    foldStep [] ⟨"/", .int (-3), .int 2, "x1"⟩ =
      (Cmap.set [] "x1" (-2), ⟨"=", .int (-2), .null, "x1"⟩) :=
  c4_division_folds_floored [] ⟨"/", .int (-3), .int 2, "x1"⟩ (-3) 2 rfl rfl rfl (by decide)

/-- C3 counterexample: for `int total; total = 1;` the analyzer records
`total` as a user (non-temporary) variable and emits its assignment, yet
dead-code elimination deletes that assignment — the pass identifies
"temporaries" purely by the name prefix `t`. -/
theorem c3_counterexample :
    (analyze 100 astTotal).2.symbols = [("total", false)] ∧
    (analyze 100 astTotal).2.quadruples = [⟨"=", .int 1, .null, "total"⟩] ∧
    deadCodeElimination (analyze 100 astTotal).2.quadruples = [] := by
  refine ⟨rfl, rfl, rfl⟩

/-- C3 (amended): dead-code elimination removes exactly the assignment
quadruples whose destination *name starts with the letter `t`* and is
not referenced as an operand or `jump` target; assignments to names not
starting with `t` are never removed, but an unused user variable whose
name begins with `t` is removed like a temporary. -/
theorem c3_dce_removes_only_t_named (qs : List Quadruple) :
    deadCodeElimination qs =
      qs.filter (fun q =>
        !(q.op == "=" && pyStartsWith q.result "t" && !isUsed qs q.result)) := by
  have aux : ∀ (orig l : List Quadruple), dceGo orig l =
      l.filter (fun q =>
        !(q.op == "=" && pyStartsWith q.result "t" && !isUsed orig q.result)) := by
    intro orig l
    induction l with
    | nil => rfl
    | cons q rest ih =>
      simp only [dceGo, List.filter_cons]
      by_cases h1 : (q.op == "=" && pyStartsWith q.result "t") = true
      · rw [Bool.and_eq_true] at h1
        by_cases h2 : isUsed orig q.result = true
        · simp [h1.1, h1.2, h2, ih]
        · simp [h1.1, h1.2, h2, ih]
      · rw [Bool.and_eq_true] at h1
        push_neg at h1
        by_cases ha : (q.op == "=") = true
        · have hb := h1 ha
          simp [ha, hb, ih]
        · simp [ha, ih]
  exact aux qs qs

/-- C5 counterexample: the pipeline on `int a,b; b = a*2;` (analyzer,
then the four optimizer passes, then the code generator run on the
analyzer's symbol table) emits the unrecognized-operator placeholder
line for the strength-reduced `<<` quadruple. -/
theorem c5_counterexample :
    AsmLine.unknownOp "<<" ∈
      generate (analyze 100 astMulByTwo).2.symbols
        (optimize (analyze 100 astMulByTwo).2.quadruples) := by
  decide

/-- C5 (amended): the unrecognized-operator branch IS reachable —
strength-reduced shift quadruples are not lowered to instructions; for
any quadruple with operator `<<` or `>>` the generator emits exactly the
echo comment plus the comment-only placeholder. -/
theorem c5_shift_quad_placeholder (symtab : SymTab) (lc : Nat) (q : Quadruple)
    (h : q.op = "<<" ∨ q.op = ">>") :
    generateQuad symtab lc q = ([.quadComment q, .unknownOp q.op], lc) := by
  rcases h with h | h <;>
    simp [generateQuad, arithOps, relOps, h, pyStartsWith, List.isPrefixOf]

/-- Witness for C5 (amended) at the quadruple `(<<, a, 1, t1)`. -/
theorem c5_shift_quad_placeholder_witness :
    generateQuad [] 0 ⟨"<<", .str "a", .int 1, "t1"⟩ =
      ([.quadComment ⟨"<<", .str "a", .int 1, "t1"⟩, .unknownOp "<<"], 0) :=
  c5_shift_quad_placeholder [] 0 _ (Or.inl rfl)

/-- C1: on Scenario C (`int a,b; a=5; if(a>3){b=1;}else{b=0;}`) the
analyzer emits the conditional jump to the false label on the ORIGINAL
relational operator (`j>`), not the negated one — the jump to the
else-part is taken exactly when the condition HOLDS, so the branches are
swapped at run time (contrast `while`/`for`, which emit `j!<op>`). -/
theorem c1_if_condition_jump_not_negated :
    (analyze 100 astScenarioC).2.quadruples =
      [⟨"=", .int 5, .null, "a"⟩,
       ⟨"j>", .str "a", .int 3, "L1"⟩,
       ⟨"=", .int 1, .null, "b"⟩,
       ⟨"jump", .null, .null, "L2"⟩,
       ⟨"label", .null, .null, "L1"⟩,
       ⟨"=", .int 0, .null, "b"⟩,
       ⟨"label", .null, .null, "L2"⟩] := by
  rfl

/-- C2 counterexample: for `int a,b,c; a=5; b=3; c=a+b;` the stream
after constant folding is NOT the claimed three-quadruple stream ending
in `(=,8,_,c)`. -/
theorem c2_counterexample :
    constantFolding (analyze 100 astScenarioB).2.quadruples ≠
      [⟨"=", .int 5, .null, "a"⟩, ⟨"=", .int 3, .null, "b"⟩,
       ⟨"=", .int 8, .null, "c"⟩] := by
  decide

/-- In the stream CSE produces, the expression keys of the surviving
arithmetic/relational quadruples are pairwise distinct and all absent
from the map CSE started with (each survivor was recorded the moment it
was first seen). -/
theorem cseGo_fresh (m : Emap) (qs : List Quadruple) :
    (cseKeys (cseGo m qs)).Nodup ∧
    ∀ k ∈ cseKeys (cseGo m qs), List.lookup k m = none := by
  induction qs generalizing m with
  | nil => simp [cseGo, cseKeys]
  | cons q rest ih =>
    by_cases hc : q.op ∈ arithOps ++ relOps
    · rcases hl : List.lookup (q.op, q.arg1, q.arg2) m with _ | v
      · have heq : cseGo m (q :: rest) =
            q :: cseGo (((q.op, q.arg1, q.arg2), q.result) :: m) rest := by
          simp [cseGo, cseStep, hc, hl]
        rw [heq]
        have hkeys : cseKeys (q :: cseGo (((q.op, q.arg1, q.arg2), q.result) :: m) rest) =
            (q.op, q.arg1, q.arg2) ::
              cseKeys (cseGo (((q.op, q.arg1, q.arg2), q.result) :: m) rest) := by
          simp [cseKeys, hc]
        rw [hkeys]
        obtain ⟨ihnd, ihfr⟩ := ih (((q.op, q.arg1, q.arg2), q.result) :: m)
        constructor
        · refine List.nodup_cons.mpr ⟨?_, ihnd⟩
          intro hmem
          have := ihfr _ hmem
          simp [List.lookup] at this
        · intro k hk
          rcases List.mem_cons.mp hk with hk | hk
          · subst hk
            exact hl
          · have := ihfr k hk
            rw [List.lookup] at this
            rcases hbe : (k == (q.op, q.arg1, q.arg2)) with _ | _
            · rw [hbe] at this
              exact this
            · rw [hbe] at this
              simp at this
      · have heq : cseGo m (q :: rest) =
            Quadruple.mk "=" (.str v) .null q.result :: cseGo m rest := by
          simp [cseGo, cseStep, hc, hl]
        rw [heq]
        have hkeys : cseKeys (Quadruple.mk "=" (.str v) .null q.result :: cseGo m rest) =
            cseKeys (cseGo m rest) := by
          simp [cseKeys, arithOps, relOps]
        rw [hkeys]
        exact ih m
    · have heq : cseGo m (q :: rest) = q :: cseGo m rest := by
        simp [cseGo, cseStep, hc]
      rw [heq]
      have hkeys : cseKeys (q :: cseGo m rest) = cseKeys (cseGo m rest) := by
        simp [cseKeys, hc]
      rw [hkeys]
      exact ih m

/-- A stream whose arithmetic/relational keys are pairwise distinct and
unknown to the starting map passes through CSE unchanged. -/
theorem cseGo_fixed (m : Emap) (qs : List Quadruple)
    (hnd : (cseKeys qs).Nodup)
    (hdj : ∀ k ∈ cseKeys qs, List.lookup k m = none) :
    cseGo m qs = qs := by
  induction qs generalizing m with
  | nil => rfl
  | cons q rest ih =>
    by_cases hc : q.op ∈ arithOps ++ relOps
    · have hkeyeq : cseKeys (q :: rest) = (q.op, q.arg1, q.arg2) :: cseKeys rest := by
        simp [cseKeys, hc]
      rw [hkeyeq] at hnd hdj
      have hl := hdj _ (List.mem_cons_self _ _)
      have heq : cseGo m (q :: rest) =
          q :: cseGo (((q.op, q.arg1, q.arg2), q.result) :: m) rest := by
        simp [cseGo, cseStep, hc, hl]
      rw [heq]
      congr 1
      apply ih
      · exact (List.nodup_cons.mp hnd).2
      intro k hk
      have hkm := hdj k (List.mem_cons_of_mem _ hk)
      have hne : ¬ k = (q.op, q.arg1, q.arg2) := by
        intro hkk
        exact (List.nodup_cons.mp hnd).1 (hkk ▸ hk)
      rw [List.lookup]
      rcases hbe : (k == (q.op, q.arg1, q.arg2)) with _ | _
      · exact hkm
      · exact absurd (by exact beq_iff_eq.mp hbe) hne
    · have hkeyeq : cseKeys (q :: rest) = cseKeys rest := by
        simp [cseKeys, hc]
      rw [hkeyeq] at hnd hdj
      have heq : cseGo m (q :: rest) = q :: cseGo m rest := by
        simp [cseGo, cseStep, hc]
      rw [heq]
      congr 1
      exact ih m hnd hdj

/-- C9: common-subexpression elimination is idempotent — applying the
pass to its own output (with no intervening pass) returns the output
quadruple-for-quadruple. -/
theorem c9_cse_idempotent (qs : List Quadruple) : cse (cse qs) = cse qs := by
  unfold cse
  exact cseGo_fixed [] (cseGo [] qs) (cseGo_fresh [] qs).1 (fun k _ => rfl)

/-! ### Infrastructure for the analyzer invariant (claim C6) -/

/-- A string operand check survives symbol-table growth. -/
theorem opndOk_mono {syms syms' : List (String × Bool)} {o : Operand}
    (hmono : ∀ s, syms.any (·.1 == s) = true → syms'.any (·.1 == s) = true)
    (h : opndOk syms o) : opndOk syms' o := fun s hs => hmono s (h s hs)

/-- A quadruple check survives symbol-table growth. -/
theorem quadOk_mono {syms syms' : List (String × Bool)} {q : Quadruple}
    (hmono : ∀ s, syms.any (·.1 == s) = true → syms'.any (·.1 == s) = true)
    (h : quadOk syms q) : quadOk syms' q :=
  ⟨opndOk_mono hmono h.1, opndOk_mono hmono h.2.1, fun he => hmono _ (h.2.2 he)⟩

/-- Result typing survives symbol-table growth. -/
theorem rvalOk_mono {st st' : ASt} {v : RVal}
    (hmono : ∀ s, symContains st s = true → symContains st' s = true)
    (h : rvalOk v st) : rvalOk v st' := by
  cases v with
  | unit => trivial
  | opnd o => exact opndOk_mono hmono h
  | pending op a b => exact ⟨opndOk_mono hmono h.1, opndOk_mono hmono h.2⟩

/-- Membership in a grown symbol list. -/
theorem any_append_left {l l' : List (String × Bool)} {s : String}
    (h : l.any (·.1 == s) = true) : (l ++ l').any (·.1 == s) = true := by
  simp [List.any_append, h]

/-- Sequencing two good steps. -/
theorem GoodP.bind {α β : Type} {st : ASt} {x : M α} {f : α → M β}
    {rOk1 : α → ASt → Prop} {rOk2 : β → ASt → Prop}
    (hx : GoodP st (x st) rOk1)
    (hf : ∀ a st₁, x st = (.ok a, st₁) → Inv st₁ → rOk1 a st₁ →
      (∀ s, symContains st s = true → symContains st₁ s = true) →
      GoodP st₁ (f a st₁) rOk2) :
    GoodP st ((x >>= f) st) rOk2 := by
  rcases hxe : x st with ⟨r, st₁⟩
  rw [hxe] at hx
  obtain ⟨hx1, hx2, hx3, hx4, hx5⟩ := hx
  rcases r with e | a
  · have hb : (x >>= f) st = (.error e, st₁) := by
      show (match x st with
        | (.ok a, st₁) => f a st₁
        | (.error e, st₁) => (.error e, st₁)) = _
      rw [hxe]
    rw [hb]
    refine ⟨hx1, hx2, hx3, ?_, ?_⟩
    · intro y hy
      have he : e = Failure.sem (SemError.undeclared y) := by simpa using hy
      exact hx4 y (by rw [he])
    · intro a ha
      cases ha
  · have hb : (x >>= f) st = f a st₁ := by
      show (match x st with
        | (.ok a, st₁) => f a st₁
        | (.error e, st₁) => (.error e, st₁)) = _
      rw [hxe]
    rw [hb]
    obtain ⟨hf1, hf2, hf3, hf4, hf5⟩ := hf a st₁ hxe hx1 (hx5 a rfl) hx2
    exact ⟨hf1, fun s hs => hf2 s (hx2 s hs), hf3.trans hx3, hf4, hf5⟩

/-- A `pure` step is good when its value is well-typed. -/
theorem good_pure {α : Type} {st : ASt} {a : α} {rOk : α → ASt → Prop}
    (hInv : Inv st) (hr : rOk a st) : GoodP st ((pure a : M α) st) rOk := by
  show GoodP st ((Except.ok a, st) : Except Failure α × ASt) rOk
  refine ⟨hInv, fun _ h => h, rfl, ?_, ?_⟩
  · intro x hx
    cases hx
  · intro b hb
    cases hb
    exact hr

/-- Raising a crash is good. -/
theorem good_crash {α : Type} {st : ASt} {m : String} {rOk : α → ASt → Prop}
    (hInv : Inv st) : GoodP st ((mthrow (.crash m) : M α) st) rOk := by
  show GoodP st ((Except.error (.crash m), st) : Except Failure α × ASt) rOk
  refine ⟨hInv, fun _ h => h, rfl, ?_, ?_⟩
  · intro x hx
    cases hx
  · intro b hb
    cases hb

/-- Raising a malformed-node error is good. -/
theorem good_malformed {α : Type} {st : ASt} {m : String} {rOk : α → ASt → Prop}
    (hInv : Inv st) : GoodP st ((mthrow (.sem (.malformed m)) : M α) st) rOk := by
  show GoodP st ((Except.error (.sem (.malformed m)), st) : Except Failure α × ASt) rOk
  refine ⟨hInv, fun _ h => h, rfl, ?_, ?_⟩
  · intro x hx
    cases hx
  · intro b hb
    cases hb

/-- Raising `Undeclared x` is good exactly when `x` is absent from the
table at the raise site. -/
theorem good_undeclared {α : Type} {st : ASt} {x : String} {rOk : α → ASt → Prop}
    (hInv : Inv st) (hx : symContains st x = false) :
    GoodP st ((mthrow (.sem (.undeclared x)) : M α) st) rOk := by
  show GoodP st ((Except.error (.sem (.undeclared x)), st) : Except Failure α × ASt) rOk
  refine ⟨hInv, fun _ h => h, rfl, ?_, ?_⟩
  · intro y hy
    cases hy
    exact hx
  · intro b hb
    cases hb

/-- `add_symbol` is good: it either raises `Redeclared` untouched or
appends one entry. -/
theorem good_addSymbol {st : ASt} {nm : String} {b : Bool}
    (hInv : Inv st) :
    GoodP st (addSymbol nm b st) (fun _ st' => symContains st' nm = true) := by
  unfold addSymbol
  by_cases hc : st.symbols.any (·.1 == nm) = true
  · rw [if_pos hc]
    refine ⟨hInv, fun _ h => h, rfl, ?_, ?_⟩
    · intro x hx
      cases hx
    · intro a ha
      cases ha
  · rw [if_neg hc]
    refine ⟨?_, ?_, rfl, ?_, ?_⟩
    · intro q hq
      exact quadOk_mono (fun s => any_append_left) (hInv q hq)
    · intro s hs
      exact any_append_left hs
    · intro x hx
      cases hx
    · intro a _
      show (st.symbols ++ [(nm, b)]).any (·.1 == nm) = true
      simp [List.any_append]

/-- `new_temp` is good and returns a name present in the table. -/
theorem good_newTemp {st : ASt} (hInv : Inv st) :
    GoodP st (newTemp st) (fun nm st' => symContains st' nm = true) := by
  show GoodP { st with next_temp := st.next_temp + 1 }
      ((addSymbol ("t" ++ toString st.next_temp) true >>=
        fun _ => pure ("t" ++ toString st.next_temp))
        { st with next_temp := st.next_temp + 1 })
      (fun nm st' => symContains st' nm = true)
  refine GoodP.bind (good_addSymbol ?_) ?_
  · exact hInv
  · intro a st₁ _ hInv₁ hr₁ _
    exact good_pure hInv₁ hr₁

/-- `_new_label` is good: it only bumps the label counter. -/
theorem good_newLabel {st : ASt} (hInv : Inv st) :
    GoodP st (newLabel st)
      (fun _ st' => st' = { st with next_label := st.next_label + 1 }) := by
  show GoodP st
    ((Except.ok ("L" ++ toString st.next_label),
      { st with next_label := st.next_label + 1 }) : Except Failure String × ASt) _
  refine ⟨hInv, fun _ h => h, rfl, ?_, ?_⟩
  · intro x hx
    cases hx
  · intro a _
    rfl

/-- Appending a quadruple whose names are all in the table is good. -/
theorem good_emit {st : ASt} {q : Quadruple} (hInv : Inv st)
    (hq : quadOk st.symbols q) :
    GoodP st (emit q st)
      (fun _ st' => st' = { st with quadruples := st.quadruples ++ [q] }) := by
  show GoodP st
    ((Except.ok (), { st with quadruples := st.quadruples ++ [q] }) :
      Except Failure Unit × ASt) _
  refine ⟨?_, fun _ h => h, rfl, ?_, ?_⟩
  · intro q' hq'
    rcases List.mem_append.mp hq' with h | h
    · exact hInv q' h
    · rw [List.mem_singleton.mp h]
      exact hq
  · intro x hx
    cases hx
  · intro a _
    rfl

/-- `SymbolTable.exists` is good and returns exactly the membership bit. -/
theorem good_symExists {st : ASt} {nm : String} (hInv : Inv st) :
    GoodP st (symExists nm st) (fun b st' => st' = st ∧ b = symContains st nm) := by
  show GoodP st
    ((Except.ok (st.symbols.any (·.1 == nm)), st) : Except Failure Bool × ASt) _
  refine ⟨hInv, fun _ h => h, rfl, ?_, ?_⟩
  · intro x hx
    cases hx
  · intro a ha
    cases ha
    exact ⟨rfl, rfl⟩

/-- Reading a name payload is good. -/
theorem good_nodeStrValue {st : ASt} {nd : ASTNode} (hInv : Inv st) :
    GoodP st (nodeStrValue nd st) (fun s st' => st' = st ∧ nd.value = .str s) := by
  rcases hv : nd.value with _ | s | k
  · have hb : nodeStrValue nd = mthrow (.crash "non-string node payload") := by
      unfold nodeStrValue
      rw [hv]
    rw [hb]
    exact good_crash hInv
  · have hb : nodeStrValue nd = pure s := by
      unfold nodeStrValue
      rw [hv]
    rw [hb]
    exact good_pure hInv ⟨rfl, rfl⟩
  · have hb : nodeStrValue nd = mthrow (.crash "non-string node payload") := by
      unfold nodeStrValue
      rw [hv]
    rw [hb]
    exact good_crash hInv

/-- Converting a well-typed expression result to an operand is good. -/
theorem good_rvalToOperand {st : ASt} {r : RVal} (hInv : Inv st)
    (hr : rvalOk r st) :
    GoodP st (rvalToOperand r st) (fun o st' => st' = st ∧ opndOk st'.symbols o) := by
  cases r with
  | unit => exact good_crash hInv
  | opnd o => exact good_pure hInv ⟨rfl, hr⟩
  | pending op a b => exact good_crash hInv

/-- `GoodP.bind` specialized to an operand-producing first step. -/
theorem GoodP.bindO {β : Type} {st : ASt} {x : M Operand} {f : Operand → M β}
    {rOk2 : β → ASt → Prop}
    (hx : GoodP st (x st) (fun o st' => opndOk st'.symbols o))
    (hf : ∀ o st₁, x st = (.ok o, st₁) → Inv st₁ → opndOk st₁.symbols o →
      (∀ s, symContains st s = true → symContains st₁ s = true) →
      GoodP st₁ (f o st₁) rOk2) :
    GoodP st ((x >>= f) st) rOk2 := GoodP.bind hx hf

/-- `GoodP.bind` specialized to a first step with trivial result typing. -/
theorem GoodP.bindT {α β : Type} {st : ASt} {x : M α} {f : α → M β}
    {rOk2 : β → ASt → Prop}
    (hx : GoodP st (x st) (fun _ _ => True))
    (hf : ∀ a st₁, x st = (.ok a, st₁) → Inv st₁ →
      (∀ s, symContains st s = true → symContains st₁ s = true) →
      GoodP st₁ (f a st₁) rOk2) :
    GoodP st ((x >>= f) st) rOk2 :=
  GoodP.bind hx (fun a st₁ he hi _ hm => hf a st₁ he hi hm)

/-- Weakening the result typing of a good step. -/
theorem GoodP.weaken {α : Type} {st : ASt} {out : Except Failure α × ASt}
    {rOk rOk' : α → ASt → Prop} (h : GoodP st out rOk)
    (himp : ∀ a st', rOk a st' → rOk' a st') : GoodP st out rOk' :=
  ⟨h.1, h.2.1, h.2.2.1, h.2.2.2.1, fun a ha => himp a _ (h.2.2.2.2 a ha)⟩

/-- A `None` operand is always acceptable. -/
theorem opndOk_null {syms : List (String × Bool)} : opndOk syms .null :=
  fun _ hs => by cases hs

/-- A literal operand is always acceptable. -/
theorem opndOk_int {syms : List (String × Bool)} {k : Int} :
    opndOk syms (.int k) := fun _ hs => by cases hs

/-- An unconditional-jump quadruple is always acceptable. -/
theorem quadOk_jump {syms : List (String × Bool)} {lbl : String} :
    quadOk syms ⟨"jump", .null, .null, lbl⟩ :=
  ⟨opndOk_null, opndOk_null, fun h => by simp at h⟩

/-- A label-definition quadruple is always acceptable. -/
theorem quadOk_label {syms : List (String × Bool)} {lbl : String} :
    quadOk syms ⟨"label", .null, .null, lbl⟩ :=
  ⟨opndOk_null, opndOk_null, fun h => by simp at h⟩

/-- The checked-identifier pattern is good: it either raises `Undeclared`
for an absent name or returns a name present in the table. -/
theorem good_identOperand {st : ASt} {nd : ASTNode} (hInv : Inv st) :
    GoodP st (identOperand nd st)
      (fun o st' => st' = st ∧ opndOk st'.symbols o) := by
  show GoodP st ((nodeStrValue nd >>= fun s =>
    symExists s >>= fun ex =>
      if ¬ ex then mthrow (.sem (.undeclared s)) else pure (Operand.str s)) st) _
  refine GoodP.bind (good_nodeStrValue hInv) ?_
  intro s st₁ _ hInv₁ hr₁ _
  refine GoodP.bind (good_symExists hInv₁) ?_
  intro b st₂ _ hInv₂ hr₂ _
  obtain ⟨hst₂, hb⟩ := hr₂
  by_cases hex : b = true
  · rw [if_neg (by simp [hex])]
    refine good_pure hInv₂ ⟨?_, ?_⟩
    · rw [hst₂, hr₁.1]
    · intro s' hs'
      cases hs'
      show st₂.symbols.any (·.1 == s) = true
      have : symContains st₂ s = true := by rw [hst₂, ← hb, hex]
      exact this
  · rw [if_pos (by simp [hex])]
    refine good_undeclared hInv₂ ?_
    rw [hst₂, ← hb]
    exact Bool.not_eq_true b ▸ hex

/-- Translating a subexpression and using its result as an operand is
good. -/
theorem good_recOperand {fuel : Nat} {c : Call} {st : ASt}
    (hg : GoodP st (runA fuel c st) rvalOk) :
    GoodP st ((runA fuel c >>= fun r => rvalToOperand r) st)
      (fun o st' => opndOk st'.symbols o) := by
  refine GoodP.bind hg ?_
  intro r st₁ _ hInv₁ hr₁ _
  exact (good_rvalToOperand hInv₁ hr₁).weaken (fun o st' h => h.2)

/-- Inversion: hereditary well-formedness descends to every child. -/
theorem NumOk.children_mem {n : ASTNode} (h : NumOk n) :
    ∀ c ∈ n.children, NumOk c := by
  cases n with
  | mk t v cs => cases h with | mk _ _ _ _ hc => exact hc

/-- Inversion: the local payload check holds at the root. -/
theorem NumOk.payload {n : ASTNode} (h : NumOk n) :
    ASTNode.numOkHere n.node_type n.value = true := by
  cases n with
  | mk t v cs => cases h with | mk _ _ _ hh _ => exact hh

/-- A well-formed `Number` node cannot carry a string payload. -/
theorem numOk_number_not_str {n : ASTNode} (h : NumOk n)
    (ht : n.node_type = "Number") (s : String) : n.value ≠ .str s := by
  intro hv
  have hp := h.payload
  rw [ht, hv] at hp
  simp [ASTNode.numOkHere] at hp

/-- A non-string payload converts to an always-acceptable operand. -/
theorem opndOk_valToOperand {syms : List (String × Bool)} {v : AVal}
    (hv : ∀ s, v ≠ .str s) : opndOk syms (valToOperand v) := by
  cases v with
  | null => intro s hs; cases hs
  | str s' => exact absurd rfl (hv s')
  | int k => intro s hs; cases hs

/-- A conditional-jump tag is never the assignment operator. -/
theorem j_append_ne_eq (op : String) : ("j" ++ op) ≠ "=" := by
  intro h
  have hd := congrArg String.data h
  simp [String.data_append] at hd

/-- A negated conditional-jump tag is never the assignment operator. -/
theorem jn_append_ne_eq (op : String) : ("j!" ++ op) ≠ "=" := by
  intro h
  have hd := congrArg String.data h
  simp [String.data_append] at hd

/-- C2 (amended): after constant folding the Scenario-B stream has FOUR
quadruples — the addition is folded into a literal assignment to the
temporary `t1`, while the copy `(=,t1,_,c)` is left unrewritten (only the
constant table records `c = 8`). -/
theorem c2_folded_stream :
    constantFolding (analyze 100 astScenarioB).2.quadruples =
      [⟨"=", .int 5, .null, "a"⟩, ⟨"=", .int 3, .null, "b"⟩,
       ⟨"=", .int 8, .null, "t1"⟩, ⟨"=", .str "t1", .null, "c"⟩] := by
  rfl



theorem good_arm_factor (fuel : Nat)
    (ih : ∀ (c : Call) (st : ASt), Inv st → wfCall c →
      GoodP st (runA fuel c st) rvalOk)
    (n : ASTNode) (st : ASt) (hInv : Inv st) (hwf : NumOk n) :
    GoodP st (runA (fuel + 1) (.factor n) st) rvalOk := by
  simp only [runA]
  rcases hch : n.children with _ | ⟨child, rest⟩
  · simp only [hch]
    exact good_malformed hInv
  · simp only [hch]
    have hwfc : NumOk child := hwf.children_mem child (by rw [hch]; exact List.mem_cons_self _ _)
    by_cases h1 : child.node_type = "Identifier"
    · rw [if_pos h1]
      refine GoodP.bindO ((good_identOperand hInv).weaken (fun o st' h => h.2)) ?_
      intro o st₁ _ hInv₁ hr₁ _
      exact good_pure hInv₁ hr₁
    · rw [if_neg h1]
      by_cases h2 : child.node_type = "Number"
      · rw [if_pos h2]
        exact good_pure hInv (opndOk_valToOperand (numOk_number_not_str hwfc h2))
      · rw [if_neg h2]
        by_cases h3 : child.node_type = "ArithExpression"
        · rw [if_pos h3]
          exact ih (.arithExpr child) st hInv hwfc
        · rw [if_neg h3]
          exact good_malformed hInv

theorem good_arm_assignExpr (fuel : Nat)
    (ih : ∀ (c : Call) (st : ASt), Inv st → wfCall c →
      GoodP st (runA fuel c st) rvalOk)
    (n : ASTNode) (st : ASt) (hInv : Inv st) (hwf : NumOk n) :
    GoodP st (runA (fuel + 1) (.assignExpr n) st) rvalOk := by
  simp only [runA]
  rcases hch : n.children with _ | ⟨idNode, _ | ⟨rightExpr, rest⟩⟩
  · simp only [hch]
    exact good_malformed hInv
  · simp only [hch]
    exact good_malformed hInv
  · simp only [hch]
    have hwfr : NumOk rightExpr := hwf.children_mem _
      (by rw [hch]; exact List.mem_cons_of_mem _ (List.mem_cons_self _ _))
    by_cases h0 : idNode.node_type ≠ "Identifier"
    · rw [if_pos h0]
      exact good_malformed hInv
    · rw [if_neg h0]
      refine GoodP.bind (good_nodeStrValue hInv) ?_
      intro idName st₁ _ hInv₁ hr₁ _
      obtain ⟨hst₁, hv₁⟩ := hr₁
      refine GoodP.bind (good_symExists hInv₁) ?_
      intro b st₂ _ hInv₂ hr₂ _
      obtain ⟨hst₂, hb⟩ := hr₂
      by_cases hex : b = true
      · rw [if_neg (by simp [hex])]
        refine GoodP.bindO ?_ ?_
        · by_cases hr1 : rightExpr.node_type = "ArithmeticExpression"
          · rw [if_pos hr1]
            exact good_recOperand (ih (.arithExpr rightExpr) st₂ hInv₂ hwfr)
          · rw [if_neg hr1]
            by_cases hr2 : rightExpr.node_type = "Identifier"
            · rw [if_pos hr2]
              exact (good_identOperand hInv₂).weaken (fun o st' h => h.2)
            · rw [if_neg hr2]
              by_cases hr3 : rightExpr.node_type = "Number"
              · rw [if_pos hr3]
                exact good_pure hInv₂
                  (opndOk_valToOperand (numOk_number_not_str hwfr hr3))
              · rw [if_neg hr3]
                exact good_recOperand (ih (.expression rightExpr) st₂ hInv₂ hwfr)
        · intro rv st₃ _ hInv₃ hrv hmono₃
          have hid : symContains st₃ idName = true := by
            apply hmono₃
            rw [hst₂, ← hb]
            exact hex
          refine GoodP.bind (good_emit hInv₃ ⟨hrv, opndOk_null, fun _ => hid⟩) ?_
          intro _ st₄ _ hInv₄ hst₄ hmono₄
          refine good_pure hInv₄ ?_
          intro s hs
          cases hs
          exact hmono₄ _ hid
      · rw [if_pos (by simp [hex])]
        refine good_undeclared hInv₂ ?_
        rw [hst₂, ← hb]
        exact Bool.not_eq_true b ▸ hex

theorem good_arm_boolExpr (fuel : Nat)
    (ih : ∀ (c : Call) (st : ASt), Inv st → wfCall c →
      GoodP st (runA fuel c st) rvalOk)
    (n : ASTNode) (st : ASt) (hInv : Inv st) (hwf : NumOk n) :
    GoodP st (runA (fuel + 1) (.boolExpr n) st) rvalOk := by
  simp only [runA]
  rcases hch : n.children with _ | ⟨e1, _ | ⟨e2, _ | ⟨e3, _ | ⟨e4, rest⟩⟩⟩⟩
  · simp only [hch]
    exact good_malformed hInv
  · simp only [hch]
    have hwf1 : NumOk e1 := hwf.children_mem _ (by rw [hch]; exact List.mem_cons_self _ _)
    refine GoodP.bind (ih (.arithExpr e1) st hInv hwf1) ?_
    intro r st₁ _ hInv₁ hr₁ _
    refine GoodP.bind (good_rvalToOperand hInv₁ hr₁) ?_
    intro a st₂ _ hInv₂ hr₂ _
    refine GoodP.bind (good_newTemp hInv₂) ?_
    intro temp st₃ _ hInv₃ htemp hmono₃
    have hoa₃ : opndOk st₃.symbols a := opndOk_mono (fun s hs => hmono₃ s hs) hr₂.2
    refine GoodP.bind (good_emit hInv₃ ⟨hoa₃, opndOk_int, fun h => by simp at h⟩) ?_
    intro _ st₄ _ hInv₄ _ hmono₄
    refine good_pure hInv₄ ?_
    exact ⟨opndOk_mono (fun s hs => hmono₄ s hs) hoa₃, opndOk_int⟩
  · simp only [hch]
    exact good_malformed hInv
  · simp only [hch]
    have hwfl : NumOk e1 := hwf.children_mem _ (by rw [hch]; exact List.mem_cons_self _ _)
    have hwfr : NumOk e3 := hwf.children_mem _
      (by rw [hch]
          exact List.mem_cons_of_mem _ (List.mem_cons_of_mem _ (List.mem_cons_self _ _)))
    refine GoodP.bindO ?_ ?_
    · by_cases hl1 : e1.node_type = "Identifier"
      · rw [if_pos hl1]
        exact (good_identOperand hInv).weaken (fun o st' h => h.2)
      · rw [if_neg hl1]
        by_cases hl2 : e1.node_type = "Number"
        · rw [if_pos hl2]
          exact good_pure hInv (opndOk_valToOperand (numOk_number_not_str hwfl hl2))
        · rw [if_neg hl2]
          exact good_recOperand (ih (.arithExpr e1) st hInv hwfl)
    · intro leftR st₁ _ hInv₁ hlr hmono₁
      refine GoodP.bindO ?_ ?_
      · by_cases hq1 : e3.node_type = "Identifier"
        · rw [if_pos hq1]
          exact (good_identOperand hInv₁).weaken (fun o st' h => h.2)
        · rw [if_neg hq1]
          by_cases hq2 : e3.node_type = "Number"
          · rw [if_pos hq2]
            exact good_pure hInv₁ (opndOk_valToOperand (numOk_number_not_str hwfr hq2))
          · rw [if_neg hq2]
            exact good_recOperand (ih (.arithExpr e3) st₁ hInv₁ hwfr)
      · intro rightR st₂ _ hInv₂ hrr hmono₂
        refine GoodP.bind (good_nodeStrValue hInv₂) ?_
        intro relOp st₃ _ hInv₃ hr₃ _
        obtain ⟨hst₃, _⟩ := hr₃
        refine good_pure hInv₃ ?_
        constructor
        · rw [hst₃]
          exact opndOk_mono (fun s hs => hmono₂ s hs) hlr
        · rw [hst₃]
          exact hrr
  · simp only [hch]
    exact good_malformed hInv



theorem good_arm_arithExpr (fuel : Nat)
    (ih : ∀ (c : Call) (st : ASt), Inv st → wfCall c →
      GoodP st (runA fuel c st) rvalOk)
    (n : ASTNode) (st : ASt) (hInv : Inv st) (hwf : NumOk n) :
    GoodP st (runA (fuel + 1) (.arithExpr n) st) rvalOk := by
  simp only [runA]
  rcases hch : n.children with _ | ⟨e1, _ | ⟨e2, _ | ⟨e3, _ | ⟨e4, rest⟩⟩⟩⟩
  · simp only [hch]
    exact good_crash hInv
  · simp only [hch]
    exact ih (.expression e1) st hInv
      (hwf.children_mem _ (by rw [hch]; exact List.mem_cons_self _ _))
  · simp only [hch]
    exact ih (.expression e1) st hInv
      (hwf.children_mem _ (by rw [hch]; exact List.mem_cons_self _ _))
  · simp only [hch]
    have hwfl : NumOk e1 := hwf.children_mem _ (by rw [hch]; exact List.mem_cons_self _ _)
    have hwfr : NumOk e3 := hwf.children_mem _
      (by rw [hch]
          exact List.mem_cons_of_mem _ (List.mem_cons_of_mem _ (List.mem_cons_self _ _)))
    refine GoodP.bindO ?_ ?_
    · by_cases hl1 : e1.node_type = "Identifier"
      · rw [if_pos hl1]
        exact (good_identOperand hInv).weaken (fun o st' h => h.2)
      · rw [if_neg hl1]
        by_cases hl2 : e1.node_type = "Number"
        · rw [if_pos hl2]
          exact good_pure hInv (opndOk_valToOperand (numOk_number_not_str hwfl hl2))
        · rw [if_neg hl2]
          by_cases hl3 : e1.node_type = "ArithmeticExpression"
          · rw [if_pos hl3]
            exact good_recOperand (ih (.arithExpr e1) st hInv hwfl)
          · rw [if_neg hl3]
            exact good_recOperand (ih (.expression e1) st hInv hwfl)
    · intro leftR st₁ _ hInv₁ hlr hmono₁
      refine GoodP.bindO ?_ ?_
      · by_cases hq1 : e3.node_type = "Identifier"
        · rw [if_pos hq1]
          exact (good_identOperand hInv₁).weaken (fun o st' h => h.2)
        · rw [if_neg hq1]
          by_cases hq2 : e3.node_type = "Number"
          · rw [if_pos hq2]
            exact good_pure hInv₁ (opndOk_valToOperand (numOk_number_not_str hwfr hq2))
          · rw [if_neg hq2]
            by_cases hq3 : e3.node_type = "ArithmeticExpression"
            · rw [if_pos hq3]
              exact good_recOperand (ih (.arithExpr e3) st₁ hInv₁ hwfr)
            · rw [if_neg hq3]
              exact good_recOperand (ih (.expression e3) st₁ hInv₁ hwfr)
      · intro rightR st₂ _ hInv₂ hrr hmono₂
        refine GoodP.bind (good_nodeStrValue hInv₂) ?_
        intro op st₃ _ hInv₃ hr₃ _
        obtain ⟨hst₃, _⟩ := hr₃
        refine GoodP.bind (good_newTemp hInv₃) ?_
        intro temp st₄ _ hInv₄ htemp hmono₄
        have hlr₂ : opndOk st₂.symbols leftR := opndOk_mono (fun s hs => hmono₂ s hs) hlr
        have hlr₃ : opndOk st₃.symbols leftR := by rw [hst₃]; exact hlr₂
        have hlr₄ : opndOk st₄.symbols leftR := opndOk_mono (fun s hs => hmono₄ s hs) hlr₃
        have hrr₃ : opndOk st₃.symbols rightR := by rw [hst₃]; exact hrr
        have hrr₄ : opndOk st₄.symbols rightR := opndOk_mono (fun s hs => hmono₄ s hs) hrr₃
        refine GoodP.bind (good_emit hInv₄ ⟨hlr₄, hrr₄, fun _ => htemp⟩) ?_
        intro _ st₅ _ hInv₅ _ hmono₅
        refine good_pure hInv₅ ?_
        intro s hs
        cases hs
        exact hmono₅ _ htemp
  · simp only [hch]
    exact ih (.expression e1) st hInv
      (hwf.children_mem _ (by rw [hch]; exact List.mem_cons_self _ _))

theorem good_arm_term (fuel : Nat)
    (ih : ∀ (c : Call) (st : ASt), Inv st → wfCall c →
      GoodP st (runA fuel c st) rvalOk)
    (n : ASTNode) (st : ASt) (hInv : Inv st) (hwf : NumOk n) :
    GoodP st (runA (fuel + 1) (.term n) st) rvalOk := by
  simp only [runA]
  rcases hch : n.children with _ | ⟨e1, _ | ⟨e2, _ | ⟨e3, _ | ⟨e4, rest⟩⟩⟩⟩
  · simp only [hch]
    exact good_crash hInv
  · simp only [hch]
    exact ih (.factor e1) st hInv
      (hwf.children_mem _ (by rw [hch]; exact List.mem_cons_self _ _))
  · simp only [hch]
    exact ih (.factor e1) st hInv
      (hwf.children_mem _ (by rw [hch]; exact List.mem_cons_self _ _))
  · simp only [hch]
    have hwfl : NumOk e1 := hwf.children_mem _ (by rw [hch]; exact List.mem_cons_self _ _)
    have hwfr : NumOk e3 := hwf.children_mem _
      (by rw [hch]
          exact List.mem_cons_of_mem _ (List.mem_cons_of_mem _ (List.mem_cons_self _ _)))
    refine GoodP.bindO ?_ ?_
    · by_cases hl1 : e1.node_type = "Identifier"
      · rw [if_pos hl1]
        exact (good_identOperand hInv).weaken (fun o st' h => h.2)
      · rw [if_neg hl1]
        by_cases hl2 : e1.node_type = "Number"
        · rw [if_pos hl2]
          exact good_pure hInv (opndOk_valToOperand (numOk_number_not_str hwfl hl2))
        · rw [if_neg hl2]
          by_cases hl3 : e1.node_type = "Factor"
          · rw [if_pos hl3]
            exact good_recOperand (ih (.factor e1) st hInv hwfl)
          · rw [if_neg hl3]
            exact good_recOperand (ih (.expression e1) st hInv hwfl)
    · intro leftR st₁ _ hInv₁ hlr hmono₁
      refine GoodP.bindO ?_ ?_
      · by_cases hq1 : e3.node_type = "Identifier"
        · rw [if_pos hq1]
          exact (good_identOperand hInv₁).weaken (fun o st' h => h.2)
        · rw [if_neg hq1]
          by_cases hq2 : e3.node_type = "Number"
          · rw [if_pos hq2]
            exact good_pure hInv₁ (opndOk_valToOperand (numOk_number_not_str hwfr hq2))
          · rw [if_neg hq2]
            by_cases hq3 : e3.node_type = "Factor"
            · rw [if_pos hq3]
              exact good_recOperand (ih (.factor e3) st₁ hInv₁ hwfr)
            · rw [if_neg hq3]
              exact good_recOperand (ih (.expression e3) st₁ hInv₁ hwfr)
      · intro rightR st₂ _ hInv₂ hrr hmono₂
        refine GoodP.bind (good_nodeStrValue hInv₂) ?_
        intro op st₃ _ hInv₃ hr₃ _
        obtain ⟨hst₃, _⟩ := hr₃
        refine GoodP.bind (good_newTemp hInv₃) ?_
        intro temp st₄ _ hInv₄ htemp hmono₄
        have hlr₂ : opndOk st₂.symbols leftR := opndOk_mono (fun s hs => hmono₂ s hs) hlr
        have hlr₃ : opndOk st₃.symbols leftR := by rw [hst₃]; exact hlr₂
        have hlr₄ : opndOk st₄.symbols leftR := opndOk_mono (fun s hs => hmono₄ s hs) hlr₃
        have hrr₃ : opndOk st₃.symbols rightR := by rw [hst₃]; exact hrr
        have hrr₄ : opndOk st₄.symbols rightR := opndOk_mono (fun s hs => hmono₄ s hs) hrr₃
        refine GoodP.bind (good_emit hInv₄ ⟨hlr₄, hrr₄, fun _ => htemp⟩) ?_
        intro _ st₅ _ hInv₅ _ hmono₅
        refine good_pure hInv₅ ?_
        intro s hs
        cases hs
        exact hmono₅ _ htemp
  · simp only [hch]
    exact ih (.factor e1) st hInv
      (hwf.children_mem _ (by rw [hch]; exact List.mem_cons_self _ _))

/-- The condition-jump block shared by `if`/`while`/`for` is good: given a
well-typed condition result it emits the conditional jump(s). -/
theorem good_condBlock (negated : Bool) (exprNode : ASTNode) (condResult : RVal)
    (lbl : String) (st : ASt) (hInv : Inv st) (hcr : rvalOk condResult st) :
    GoodP st (condJump negated exprNode condResult lbl st) (fun _ _ => True) := by
  unfold condJump
  by_cases hb1 : exprNode.node_type = "BooleanExpression" ∧ exprNode.children.length > 1
  · rw [if_pos hb1]
    rcases condResult with _ | o | ⟨op, a1, a2⟩
    · exact good_crash hInv
    · exact good_crash hInv
    · refine (good_emit hInv ⟨hcr.1, hcr.2, fun h => ?_⟩).weaken (fun _ _ _ => trivial)
      rcases negated with _ | _
      · exact absurd h (j_append_ne_eq op)
      · exact absurd h (jn_append_ne_eq op)
  · rw [if_neg hb1]
    refine GoodP.bind (good_newTemp hInv) ?_
    intro temp st₁ _ hInv₁ htemp hmono₁
    have hcr₁ : rvalOk condResult st₁ := rvalOk_mono (fun s hs => hmono₁ s hs) hcr
    refine GoodP.bind (good_rvalToOperand hInv₁ hcr₁) ?_
    intro condOp st₂ _ hInv₂ hr₂ hmono₂
    obtain ⟨hst₂, hoc⟩ := hr₂
    refine GoodP.bind (good_emit hInv₂ ⟨hoc, opndOk_int, fun h => ?_⟩) ?_
    · rcases negated with _ | _ <;> simp at h
    · intro _ st₃ _ hInv₃ _ hmono₃
      have htemp₃ : symContains st₃ temp = true := hmono₃ _ (hmono₂ _ htemp)
      refine (good_emit hInv₃ ⟨?_, opndOk_int, fun h => ?_⟩).weaken (fun _ _ _ => trivial)
      · intro s hs
        cases hs
        exact htemp₃
      · rcases negated with _ | _ <;> simp at h



theorem good_arm_ifStmt (fuel : Nat)
    (ih : ∀ (c : Call) (st : ASt), Inv st → wfCall c →
      GoodP st (runA fuel c st) rvalOk)
    (n : ASTNode) (st : ASt) (hInv : Inv st) (hwf : NumOk n) :
    GoodP st (runA (fuel + 1) (.ifStmt n) st) rvalOk := by
  simp only [runA]
  rcases hf : n.children.find? (fun ch =>
      ch.node_type == "AssignmentExpression" || ch.node_type == "BooleanExpression")
    with _ | exprNode
  · simp only [hf]
    exact good_malformed hInv
  · simp only [hf]
    have hwfe : NumOk exprNode := hwf.children_mem _ (List.mem_of_find?_eq_some hf)
    refine GoodP.bind (ih (.expression exprNode) st hInv hwfe) ?_
    intro condResult st₁ _ hInv₁ hcr _
    refine GoodP.bind (good_newLabel hInv₁) ?_
    intro falseLabel st₂ _ hInv₂ hst₂ _
    refine GoodP.bind (good_newLabel hInv₂) ?_
    intro endLabel st₃ _ hInv₃ hst₃ _
    have hcr₃ : rvalOk condResult st₃ := by
      rw [hst₃, hst₂]
      exact hcr
    refine GoodP.bindT (good_condBlock false exprNode condResult falseLabel st₃ hInv₃ hcr₃) ?_
    intro _ st₄ _ hInv₄ _
    refine GoodP.bindT ?_ ?_
    · rcases hts : n.children.find? (fun ch => ch.node_type == "CompoundStatement")
        with _ | thenStmt
      · simp only [hts]
        exact good_pure hInv₄ trivial
      · simp only [hts]
        refine GoodP.bind (ih (.compound thenStmt) st₄ hInv₄
          (hwf.children_mem _ (List.mem_of_find?_eq_some hts))) ?_
        intro _ st' _ hInv' _ _
        exact good_pure hInv' trivial
    · intro _ st₅ _ hInv₅ _
      refine GoodP.bindT ((good_emit hInv₅ quadOk_jump).weaken (fun _ _ _ => trivial)) ?_
      intro _ st₆ _ hInv₆ _
      refine GoodP.bindT ((good_emit hInv₆ quadOk_label).weaken (fun _ _ _ => trivial)) ?_
      intro _ st₇ _ hInv₇ _
      refine GoodP.bindT ?_ ?_
      · rcases hfil : n.children.filter (fun ch => ch.node_type == "CompoundStatement")
          with _ | ⟨c0, _ | ⟨c1, crest⟩⟩
        · simp only [hfil]
          exact good_pure hInv₇ trivial
        · simp only [hfil]
          exact good_pure hInv₇ trivial
        · simp only [hfil]
          have hmemf : c1 ∈ n.children.filter (fun ch => ch.node_type == "CompoundStatement") := by
            rw [hfil]
            exact List.mem_cons_of_mem _ (List.mem_cons_self _ _)
          refine GoodP.bind (ih (.compound c1) st₇ hInv₇
            (hwf.children_mem _ (List.mem_of_mem_filter hmemf))) ?_
          intro _ st' _ hInv' _ _
          exact good_pure hInv' trivial
      · intro _ st₈ _ hInv₈ _
        refine GoodP.bindT ((good_emit hInv₈ quadOk_label).weaken (fun _ _ _ => trivial)) ?_
        intro _ st₉ _ hInv₉ _
        exact good_pure hInv₉ trivial

theorem good_arm_whileStmt (fuel : Nat)
    (ih : ∀ (c : Call) (st : ASt), Inv st → wfCall c →
      GoodP st (runA fuel c st) rvalOk)
    (n : ASTNode) (st : ASt) (hInv : Inv st) (hwf : NumOk n) :
    GoodP st (runA (fuel + 1) (.whileStmt n) st) rvalOk := by
  simp only [runA]
  refine GoodP.bind (good_newLabel hInv) ?_
  intro startLabel st₁ _ hInv₁ hst₁ _
  refine GoodP.bind (good_newLabel hInv₁) ?_
  intro endLabel st₂ _ hInv₂ hst₂ _
  refine GoodP.bindT ((good_emit hInv₂ quadOk_label).weaken (fun _ _ _ => trivial)) ?_
  intro _ st₃ _ hInv₃ _
  rcases hf : n.children.find? (fun ch =>
      ch.node_type == "AssignmentExpression" || ch.node_type == "BooleanExpression")
    with _ | exprNode
  · simp only [hf]
    exact good_malformed hInv₃
  · simp only [hf]
    have hwfe : NumOk exprNode := hwf.children_mem _ (List.mem_of_find?_eq_some hf)
    refine GoodP.bind (ih (.expression exprNode) st₃ hInv₃ hwfe) ?_
    intro condResult st₄ _ hInv₄ hcr _
    refine GoodP.bindT (good_condBlock true exprNode condResult endLabel st₄ hInv₄ hcr) ?_
    intro _ st₅ _ hInv₅ _
    refine GoodP.bindT ?_ ?_
    · rcases hbd : n.children.find? (fun ch => ch.node_type == "CompoundStatement")
        with _ | body
      · simp only [hbd]
        exact good_pure hInv₅ trivial
      · simp only [hbd]
        refine GoodP.bind (ih (.compound body) st₅ hInv₅
          (hwf.children_mem _ (List.mem_of_find?_eq_some hbd))) ?_
        intro _ st' _ hInv' _ _
        exact good_pure hInv' trivial
    · intro _ st₆ _ hInv₆ _
      refine GoodP.bindT ((good_emit hInv₆ quadOk_jump).weaken (fun _ _ _ => trivial)) ?_
      intro _ st₇ _ hInv₇ _
      refine GoodP.bindT ((good_emit hInv₇ quadOk_label).weaken (fun _ _ _ => trivial)) ?_
      intro _ st₈ _ hInv₈ _
      exact good_pure hInv₈ trivial

theorem good_arm_forStmt (fuel : Nat)
    (ih : ∀ (c : Call) (st : ASt), Inv st → wfCall c →
      GoodP st (runA fuel c st) rvalOk)
    (n : ASTNode) (st : ASt) (hInv : Inv st) (hwf : NumOk n) :
    GoodP st (runA (fuel + 1) (.forStmt n) st) rvalOk := by
  simp only [runA]
  rcases hch : n.children with _ | ⟨initExpr, _ | ⟨condExpr, _ | ⟨iterExpr, _ | ⟨bodyStmt, rest⟩⟩⟩⟩
  · simp only [hch]
    exact good_malformed hInv
  · simp only [hch]
    exact good_malformed hInv
  · simp only [hch]
    exact good_malformed hInv
  · simp only [hch]
    exact good_malformed hInv
  · simp only [hch]
    have hm0 : initExpr ∈ n.children := by
      rw [hch]; exact List.mem_cons_self _ _
    have hm1 : condExpr ∈ n.children := by
      rw [hch]; exact List.mem_cons_of_mem _ (List.mem_cons_self _ _)
    have hm2 : iterExpr ∈ n.children := by
      rw [hch]
      exact List.mem_cons_of_mem _ (List.mem_cons_of_mem _ (List.mem_cons_self _ _))
    have hm3 : bodyStmt ∈ n.children := by
      rw [hch]
      exact List.mem_cons_of_mem _
        (List.mem_cons_of_mem _ (List.mem_cons_of_mem _ (List.mem_cons_self _ _)))
    refine GoodP.bind (ih (.expression initExpr) st hInv (hwf.children_mem _ hm0)) ?_
    intro _ st₁ _ hInv₁ _ _
    refine GoodP.bind (good_newLabel hInv₁) ?_
    intro startLabel st₂ _ hInv₂ _ _
    refine GoodP.bind (good_newLabel hInv₂) ?_
    intro endLabel st₃ _ hInv₃ _ _
    refine GoodP.bindT ((good_emit hInv₃ quadOk_label).weaken (fun _ _ _ => trivial)) ?_
    intro _ st₄ _ hInv₄ _
    refine GoodP.bind (ih (.expression condExpr) st₄ hInv₄ (hwf.children_mem _ hm1)) ?_
    intro condResult st₅ _ hInv₅ hcr _
    refine GoodP.bindT (good_condBlock true condExpr condResult endLabel st₅ hInv₅ hcr) ?_
    intro _ st₆ _ hInv₆ _
    refine GoodP.bindT ?_ ?_
    · by_cases hbody : bodyStmt.node_type = "CompoundStatement"
      · rw [if_pos hbody]
        refine GoodP.bind (ih (.compound bodyStmt) st₆ hInv₆ (hwf.children_mem _ hm3)) ?_
        intro _ st' _ hInv' _ _
        exact good_pure hInv' trivial
      · rw [if_neg hbody]
        exact good_pure hInv₆ trivial
    · intro _ st₇ _ hInv₇ _
      refine GoodP.bind (ih (.expression iterExpr) st₇ hInv₇ (hwf.children_mem _ hm2)) ?_
      intro _ st₈ _ hInv₈ _ _
      refine GoodP.bindT ((good_emit hInv₈ quadOk_jump).weaken (fun _ _ _ => trivial)) ?_
      intro _ st₉ _ hInv₉ _
      refine GoodP.bindT ((good_emit hInv₉ quadOk_label).weaken (fun _ _ _ => trivial)) ?_
      intro _ stA _ hInvA _
      exact good_pure hInvA trivial


/-- A successful fuel-indexed check establishes hereditary
well-formedness. -/
theorem numOk_of_numOkF : ∀ (fuel : Nat) (n : ASTNode),
    numOkF fuel n = true → NumOk n := by
  intro fuel
  induction fuel with
  | zero =>
    intro n h
    cases h
  | succ fuel ih =>
    intro n h
    cases n with
    | mk t v cs =>
      simp only [numOkF, Bool.and_eq_true, List.all_eq_true] at h
      exact NumOk.mk t v cs h.1 (fun c hc => ih c (h.2 c hc))

/-- The analyzer walk preserves the quadruple/symbol-table invariant, only
grows the table, never touches the error list, raises `Undeclared x` only
with `x` absent from the table, and returns well-typed results. -/
theorem runA_good : ∀ (fuel : Nat) (c : Call) (st : ASt), Inv st → wfCall c →
    GoodP st (runA fuel c st) rvalOk := by
  intro fuel
  induction fuel with
  | zero =>
    intro c st hInv _
    exact good_crash hInv
  | succ fuel ih =>
    intro c st hInv hwf
    cases c with
    | program n =>
      simp only [runA]
      by_cases ht : n.node_type ≠ "Program"
      · rw [if_pos ht]
        exact good_malformed hInv
      · rw [if_neg ht]
        exact ih (.progChildren n.children) st hInv (NumOk.children_mem hwf)
    | progChildren ns =>
      cases ns with
      | nil =>
        simp only [runA]
        exact good_pure hInv trivial
      | cons ch cs =>
        simp only [runA]
        refine GoodP.bindT ?_ ?_
        · by_cases h1 : ch.node_type = "DeclarationSequence"
          · rw [if_pos h1]
            exact (ih (.declList ch) st hInv (hwf ch (List.mem_cons_self _ _))).weaken
              (fun _ _ _ => trivial)
          · rw [if_neg h1]
            by_cases h2 : ch.node_type = "StatementSequence"
            · rw [if_pos h2]
              exact (ih (.stmtList ch) st hInv (hwf ch (List.mem_cons_self _ _))).weaken
                (fun _ _ _ => trivial)
            · rw [if_neg h2]
              exact good_pure hInv trivial
        · intro _ st₁ _ hInv₁ _
          exact ih (.progChildren cs) st₁ hInv₁
            (fun cc hcc => hwf cc (List.mem_cons_of_mem _ hcc))
    | declList n =>
      simp only [runA]
      exact ih (.decls n.children) st hInv (NumOk.children_mem hwf)
    | decls ns =>
      cases ns with
      | nil =>
        simp only [runA]
        exact good_pure hInv trivial
      | cons ch cs =>
        simp only [runA]
        refine GoodP.bindT ?_ ?_
        · by_cases h1 : ch.node_type = "Declaration"
          · rw [if_pos h1]
            exact (ih (.declaration ch) st hInv (hwf ch (List.mem_cons_self _ _))).weaken
              (fun _ _ _ => trivial)
          · rw [if_neg h1]
            exact good_pure hInv trivial
        · intro _ st₁ _ hInv₁ _
          exact ih (.decls cs) st₁ hInv₁
            (fun cc hcc => hwf cc (List.mem_cons_of_mem _ hcc))
    | declaration n =>
      simp only [runA]
      rcases hfind : n.children.find? (fun ch => ch.node_type == "IdentifierList")
        with _ | idList
      · simp only [hfind]
        exact good_malformed hInv
      · simp only [hfind]
        exact ih (.declIds idList.children) st hInv
          ((hwf.children_mem _ (List.mem_of_find?_eq_some hfind)).children_mem)
    | declIds ns =>
      cases ns with
      | nil =>
        simp only [runA]
        exact good_pure hInv trivial
      | cons ch cs =>
        simp only [runA]
        refine GoodP.bindT ?_ ?_
        · by_cases h1 : ch.node_type = "Identifier"
          · rw [if_pos h1]
            refine GoodP.bind (good_nodeStrValue hInv) ?_
            intro nm st₁ _ hInv₁ _ _
            exact (good_addSymbol hInv₁).weaken (fun _ _ _ => trivial)
          · rw [if_neg h1]
            exact good_pure hInv trivial
        · intro _ st₁ _ hInv₁ _
          exact ih (.declIds cs) st₁ hInv₁
            (fun cc hcc => hwf cc (List.mem_cons_of_mem _ hcc))
    | stmtList n =>
      simp only [runA]
      exact ih (.stmts n.children) st hInv (NumOk.children_mem hwf)
    | stmts ns =>
      cases ns with
      | nil =>
        simp only [runA]
        exact good_pure hInv trivial
      | cons ch cs =>
        simp only [runA]
        refine GoodP.bindT
          ((ih (.statement ch) st hInv (hwf ch (List.mem_cons_self _ _))).weaken
            (fun _ _ _ => trivial)) ?_
        intro _ st₁ _ hInv₁ _
        exact ih (.stmts cs) st₁ hInv₁
          (fun cc hcc => hwf cc (List.mem_cons_of_mem _ hcc))
    | statement n =>
      simp only [runA]
      by_cases h1 : n.node_type = "AssignmentStatement"
      · rw [if_pos h1]
        exact ih (.assignStmt n) st hInv hwf
      · rw [if_neg h1]
        by_cases h2 : n.node_type = "IfStatement"
        · rw [if_pos h2]
          exact ih (.ifStmt n) st hInv hwf
        · rw [if_neg h2]
          by_cases h3 : n.node_type = "WhileStatement"
          · rw [if_pos h3]
            exact ih (.whileStmt n) st hInv hwf
          · rw [if_neg h3]
            by_cases h4 : n.node_type = "ForStatement"
            · rw [if_pos h4]
              exact ih (.forStmt n) st hInv hwf
            · rw [if_neg h4]
              by_cases h5 : n.node_type = "CompoundStatement"
              · rw [if_pos h5]
                exact ih (.compound n) st hInv hwf
              · rw [if_neg h5]
                by_cases h6 : n.node_type = "EmptyStatement"
                · rw [if_pos h6]
                  exact good_pure hInv trivial
                · rw [if_neg h6]
                  exact good_malformed hInv
    | assignStmt n =>
      simp only [runA]
      rcases hfind : n.children.find? (fun ch =>
          ch.node_type == "AssignmentExpression" || ch.node_type == "BoolExpression")
        with _ | e
      · simp only [hfind]
        exact good_malformed hInv
      · simp only [hfind]
        refine GoodP.bind (ih (.expression e) st hInv
          (hwf.children_mem _ (List.mem_of_find?_eq_some hfind))) ?_
        intro _ st₁ _ hInv₁ _ _
        exact good_pure hInv₁ trivial
    | ifStmt n => exact good_arm_ifStmt fuel ih n st hInv hwf
    | whileStmt n => exact good_arm_whileStmt fuel ih n st hInv hwf
    | forStmt n => exact good_arm_forStmt fuel ih n st hInv hwf
    | compound n =>
      simp only [runA]
      rcases hfind : n.children.find? (fun ch => ch.node_type == "StatementSequence")
        with _ | seq
      · simp only [hfind]
        exact good_pure hInv trivial
      · simp only [hfind]
        exact ih (.stmtList seq) st hInv
          (hwf.children_mem _ (List.mem_of_find?_eq_some hfind))
    | expression n =>
      simp only [runA]
      by_cases h1 : n.node_type = "AssignmentExpression"
      · rw [if_pos h1]
        exact ih (.assignExpr n) st hInv hwf
      · rw [if_neg h1]
        by_cases h2 : n.node_type = "BooleanExpression"
        · rw [if_pos h2]
          exact ih (.boolExpr n) st hInv hwf
        · rw [if_neg h2]
          by_cases h3 : n.node_type = "ArithExpression"
          · rw [if_pos h3]
            exact ih (.arithExpr n) st hInv hwf
          · rw [if_neg h3]
            by_cases h4 : n.node_type = "Term"
            · rw [if_pos h4]
              exact ih (.term n) st hInv hwf
            · rw [if_neg h4]
              by_cases h5 : n.node_type = "Factor"
              · rw [if_pos h5]
                exact ih (.factor n) st hInv hwf
              · rw [if_neg h5]
                exact good_malformed hInv
    | assignExpr n => exact good_arm_assignExpr fuel ih n st hInv hwf
    | boolExpr n => exact good_arm_boolExpr fuel ih n st hInv hwf
    | arithExpr n => exact good_arm_arithExpr fuel ih n st hInv hwf
    | term n => exact good_arm_term fuel ih n st hInv hwf
    | factor n => exact good_arm_factor fuel ih n st hInv hwf

/-- C6: on any well-formed AST whose analysis raises `Undeclared x`
(`x` used while absent from the symbol table), `analyze` returns failure,
exactly one error is surfaced, and no quadruple appended to the stream
references `x` — neither as an operand nor as an assignment destination
(the analysis aborted at the first such use). -/
theorem c6_undeclared_fail_fast (fuel : Nat) (ast : ASTNode) (x : String)
    (hwf : NumOk ast)
    (herr : (runA fuel (.program ast) initialState).1 =
      .error (.sem (.undeclared x))) :
    (analyze fuel ast).1 = .ok false ∧
    (analyze fuel ast).2.errors = [.undeclared x] ∧
    ∀ q ∈ (analyze fuel ast).2.quadruples, ¬ quadMentions q x := by
  have hg := runA_good fuel (.program ast) initialState
    (fun q hq => absurd hq (List.not_mem_nil q)) hwf
  rcases hrun : runA fuel (.program ast) initialState with ⟨r, st2⟩
  rw [hrun] at hg herr
  obtain ⟨hg1, hg2, hg3, hg4, hg5⟩ := hg
  have hr : r = .error (.sem (.undeclared x)) := herr
  subst hr
  have hx : symContains st2 x = false := hg4 x rfl
  have hana : analyze fuel ast =
      (.ok false, { st2 with errors := st2.errors ++ [.undeclared x] }) := by
    unfold analyze
    rw [hrun]
  rw [hana]
  have herrs : st2.errors = [] := by
    rw [hg3]
    rfl
  refine ⟨rfl, ?_, ?_⟩
  · show st2.errors ++ [SemError.undeclared x] = [SemError.undeclared x]
    rw [herrs]
    rfl
  · intro q hq hmention
    have hqok := hg1 q hq
    have hx2 : st2.symbols.any (·.1 == x) = false := hx
    rcases hmention with h | h | ⟨hop, hres⟩
    · have ht := hqok.1 x h
      rw [ht] at hx2
      cases hx2
    · have ht := hqok.2.1 x h
      rw [ht] at hx2
      cases hx2
    · have ht := hqok.2.2 hop
      rw [← hres] at hx2
      rw [ht] at hx2
      cases hx2

/-- Witness for C6: `main(){ x = 1; }` with `x` undeclared — analysis
fails with exactly the one `Undeclared x` error, and the stream mentions
`x` nowhere. -/
theorem c6_undeclared_fail_fast_witness :
    (analyze 100 astUndeclX).1 = .ok false ∧
    (analyze 100 astUndeclX).2.errors = [.undeclared "x"] ∧
    ∀ q ∈ (analyze 100 astUndeclX).2.quadruples, ¬ quadMentions q "x" :=
  c6_undeclared_fail_fast 100 astUndeclX "x"
    (numOk_of_numOkF 100 astUndeclX (by decide)) rfl

end SimpleCompiler
